import Mathlib

/-!
Shallow embedding of the Sawtooth Rust SDK transaction processor
(src/sdk/rust/src/processor/mod.rs): the registration handshake
(`TransactionProcessor::register`) and the connect/register/serve dispatch
loop (`TransactionProcessor::start`).

The external transport, the protobuf codec and the handler business logic
are collaborators outside this file's source; their per-call outcomes are
supplied by an explicit environment (a `World` of codec functions, per-pair
registration outcomes, and a list of receive events per connection cycle).
Executing the embedded loop against such an environment yields the list of
observable actions (connects, registration sends, handler invocations,
replies, sender closes) plus the final outcome, over which the protocol
properties are stated.
-/

/-- Raw payload bytes on the wire. -/
abbrev Bytes := List Nat

/-- Message types of the validator protocol
(messages::validator::Message_MessageType).  The dispatch loop matches only
`TP_PROCESS_REQUEST`; every other type falls to the default arm. -/
inductive Message_MessageType
  | TP_REGISTER_REQUEST
  | TP_REGISTER_RESPONSE
  | TP_PROCESS_REQUEST
  | TP_PROCESS_RESPONSE
  | PING_REQUEST
  deriving DecidableEq, Repr

/-- An inbound envelope (messages::validator::Message): message type,
correlation id, and raw content bytes. -/
structure Message where
  message_type : Message_MessageType
  correlation_id : String
  content : Bytes
  deriving DecidableEq, Repr

/-- A decoded process request (messages::processor::TpProcessRequest); the
wire shape is {context_id, payload}. -/
structure TpProcessRequest where
  context_id : String
  payload : Bytes
  deriving DecidableEq, Repr

/-- Status of a process response
(messages::processor::TpProcessResponse_Status). -/
inductive TpProcessResponse_Status
  | OK
  | INVALID_TRANSACTION
  | INTERNAL_ERROR
  deriving DecidableEq, Repr

/-- A process response (messages::processor::TpProcessResponse):
`TpProcessResponse::new()` leaves the message field unset (`none`);
`set_message` fills it. -/
structure TpProcessResponse where
  status : TpProcessResponse_Status
  message : Option String
  deriving DecidableEq, Repr

/-- A registration request (messages::processor::TpRegisterRequest):
family name, version, namespace list. -/
structure TpRegisterRequest where
  family : String
  version : String
  namespaces : List String
  deriving DecidableEq, Repr

/-- Modelled from the spec: `ApplyError` lives in processor/handler.rs,
which is not under src/.  The spec (§6) gives the variants
`InvalidTransaction(message)` and `InternalError(description)`. -/
inductive ApplyError
  | InvalidTransaction (msg : String)
  | InternalError (desc : String)
  deriving DecidableEq, Repr

/-- Modelled from the spec: `Error::description()` of an `ApplyError` (from
processor/handler.rs, not under src/) is the carried message/description
string. -/
def ApplyError.description : ApplyError → String
  | .InvalidTransaction m => m
  | .InternalError d => d

/-- A transaction family handler (trait TransactionHandler of
processor/handler.rs, interface per spec §6): family name, declared
versions, namespaces, and the pluggable apply logic.  `apply` is modelled
as a function of the request alone; the per-request `TransactionContext`
(built from the request's context id and a duplicated sender) only carries
state-access effects, which are out of scope. -/
structure TransactionHandler where
  family_name : String
  family_versions : List String
  namespaces : List String
  apply : TpProcessRequest → Except ApplyError Unit

/-- Outcome of one `sender.reply` call: `Ok(())` or one of the variants of
messaging::stream::SendError. -/
inductive SendOutcome
  | ok
  | DisconnectedError
  | TimeoutError
  | UnknownError
  deriving DecidableEq, Repr

/-- One interaction of the serve loop with `receiver.recv()`, as resolved
by the environment.  For a delivered envelope (`msg`) the event also
resolves the two external outcomes that iteration may consult: whether
serializing the response (`write_to_bytes`) succeeds, and how the transport
answers the `sender.reply` call. -/
inductive RecvEvent
  | transportErr
  | recvDisconnected
  | recvOtherErr
  | msg (m : Message) (serOk : Bool) (reply : SendOutcome)
  deriving DecidableEq, Repr

/-- External protobuf decoding (the generated messages crate is not under
src/): parsing an envelope's content bytes as a TpProcessRequest, fallible
(`protobuf::parse_from_bytes`). -/
structure World where
  parseProcessRequest : Bytes → Option TpProcessRequest

/-- generate_correlation_id(): a fresh 16-character random token per call.
The process-wide random source is modelled as a counter producing
pairwise-distinct tokens; per the spec only effective uniqueness matters,
not the token's size or distribution. -/
def generate_correlation_id (rng : Nat) : String :=
  String.mk (List.replicate rng 'a')

/-- Environment outcomes for one (handler, version) registration pair:
whether `TpRegisterRequest::write_to_bytes`, the `sender.send` call, and
the blocking `future.get()` acknowledgement succeed. -/
structure RegPairEnv where
  serOk : Bool
  sendOk : Bool
  ackOk : Bool
  deriving DecidableEq, Repr

/-- All three external calls of a registration pair succeed. -/
def RegPairEnv.allOk (e : RegPairEnv) : Bool :=
  e.serOk && e.sendOk && e.ackOk

/-- Observable actions of a run of the processor. -/
inductive ProcAction
  | connect (endpoint : String) (connId : Nat)
  | regSend (family : String) (version : String) (namespaces : List String)
      (cid : String)
  | regSuccess
  | recv (ev : RecvEvent)
  | handlerInvoked (idx : Nat) (request : TpProcessRequest)
  | reply (cid : String) (resp : TpProcessResponse) (outcome : SendOutcome)
  | closeSender (connId : Nat)
  deriving DecidableEq, Repr

/-- Control flow produced by one serve-loop iteration. -/
inductive StepCtl
  | cont
  | breakReconnect
  | breakTerminate
  | panicked
  deriving DecidableEq, Repr

/-- How the serve loop ends. -/
inductive LoopExit
  | reconnect
  | terminate
  | blocked
  | panicked
  deriving DecidableEq, Repr

/-- Final outcome of a run of start(): `terminated` is the normal return
after an unknown send error; `blocked`/`outOfCycles` mean the environment
supplied no further interaction while the loop was still alive (recv or
reconnect would block); `panicked` is an abort. -/
inductive StartOutcome
  | terminated
  | blocked
  | outOfCycles
  | panicked
  deriving DecidableEq, Repr

/-- register() lines 80-120, inner loop: for each declared version of one
handler, build a TpRegisterRequest, serialize it, send it with a fresh
correlation id, and block on the acknowledgement; the first serialization,
send, or ack failure returns false immediately.  `env i` resolves the
external outcomes of the i-th pair overall; `p` counts pairs consumed,
`rng` feeds generate_correlation_id (advanced only when a send happens). -/
def registerVersions (h : TransactionHandler) (env : Nat → RegPairEnv) :
    List String → Nat → Nat → Bool × List ProcAction × Nat × Nat
  | [], p, rng => (true, [], p, rng)
  | version :: rest, p, rng =>
    let e := env p
    if e.serOk then
      let cid := generate_correlation_id rng
      let sendAct := ProcAction.regSend h.family_name version h.namespaces cid
      if e.sendOk then
        if e.ackOk then
          let r := registerVersions h env rest (p + 1) (rng + 1)
          (r.1, sendAct :: r.2.1, r.2.2)
        else (false, [sendAct], p + 1, rng + 1)
      else (false, [sendAct], p + 1, rng + 1)
    else (false, [], p + 1, rng)

/-- register() lines 80-121, outer loop over the handler registry in
insertion order. -/
def registerHandlers (env : Nat → RegPairEnv) :
    List TransactionHandler → Nat → Nat → Bool × List ProcAction × Nat × Nat
  | [], p, rng => (true, [], p, rng)
  | h :: rest, p, rng =>
    let r := registerVersions h env h.family_versions p rng
    if r.1 then
      let r2 := registerHandlers env rest r.2.2.1 r.2.2.2
      (r2.1, r.2.1 ++ r2.2.1, r2.2.2)
    else (false, r.2.1, r.2.2)

/-- TransactionProcessor::register (lines 79-123): drive the handshake for
every (handler, version) pair; returns overall success, the registration
sends performed, and the advanced correlation counter. -/
def register (handlers : List TransactionHandler) (env : Nat → RegPairEnv)
    (rng : Nat) : Bool × List ProcAction × Nat :=
  let r := registerHandlers env handlers 0 rng
  (r.1, r.2.1, r.2.2.2)

/-- Build the TpProcessResponse from a handler's apply outcome (start(),
lines 178-198): Ok ⇒ status OK, message left unset; InvalidTransaction(msg)
⇒ status INVALID_TRANSACTION with that message; any other error ⇒ status
INTERNAL_ERROR with the error's description. -/
def responseFor : Except ApplyError Unit → TpProcessResponse
  | .ok () => { status := .OK, message := none }
  | .error (.InvalidTransaction m) =>
    { status := .INVALID_TRANSACTION, message := some m }
  | .error e => { status := .INTERNAL_ERROR, message := some e.description }

/-- Control flow after a `sender.reply` call, identical in both dispatch
arms (lines 214-226 and 238-250): Ok and Timeout continue serving,
Disconnected breaks to reconnect, Unknown clears `restart` and breaks. -/
def replyCtl : SendOutcome → StepCtl
  | .ok => .cont
  | .DisconnectedError => .breakReconnect
  | .TimeoutError => .cont
  | .UnknownError => .breakTerminate

/-- One iteration of the serve loop (start(), lines 146-257): handle one
`receiver.recv()` outcome.  Returns the observable actions of the
iteration and the resulting control flow.  `handlers = []` with a parsed
process request models the `self.handlers[0]` index-out-of-bounds panic;
a failed `write_to_bytes` in the default arm models the `.unwrap()` panic
at line 232. -/
def serveStep (w : World) (handlers : List TransactionHandler) :
    RecvEvent → List ProcAction × StepCtl
  | .transportErr => ([], .cont)
  | .recvDisconnected => ([], .breakReconnect)
  | .recvOtherErr => ([], .cont)
  | .msg m serOk replyOutcome =>
    match m.message_type with
    | .TP_PROCESS_REQUEST =>
      match w.parseProcessRequest m.content with
      | none => ([], .cont)
      | some request =>
        match handlers with
        | [] => ([], .panicked)
        | h :: _ =>
          let response := responseFor (h.apply request)
          if serOk then
            ([.handlerInvoked 0 request,
              .reply m.correlation_id response replyOutcome],
              replyCtl replyOutcome)
          else
            ([.handlerInvoked 0 request], .cont)
    | _ =>
      let response : TpProcessResponse :=
        { status := .INTERNAL_ERROR, message := some "not implemented..." }
      if serOk then
        ([.reply m.correlation_id response replyOutcome],
          replyCtl replyOutcome)
      else
        ([], .panicked)

/-- The serve loop (start(), lines 145-258): consume receive events until a
break; each consumed event is one `receiver.recv()` call. -/
def serveLoop (w : World) (handlers : List TransactionHandler) :
    List RecvEvent → List ProcAction × LoopExit
  | [] => ([], .blocked)
  | ev :: rest =>
    let r := serveStep w handlers ev
    match r.2 with
    | .cont =>
      let r2 := serveLoop w handlers rest
      (ProcAction.recv ev :: r.1 ++ r2.1, r2.2)
    | .breakReconnect => (ProcAction.recv ev :: r.1, .reconnect)
    | .breakTerminate => (ProcAction.recv ev :: r.1, .terminate)
    | .panicked => (ProcAction.recv ev :: r.1, .panicked)

/-- The environment of one connect/register/serve cycle: per-pair
registration outcomes and the receive events delivered while serving. -/
structure CycleEnv where
  regEnv : Nat → RegPairEnv
  events : List RecvEvent

/-- TransactionProcessor::start (lines 128-261).  One list entry per pass
of the `while restart` loop.  Each pass connects to the fixed endpoint
(the very first pass reuses the connection made at construction, later
passes build a fresh one — both to the same endpoint, numbered by
`connId`), registers, and serves.  A registration failure `continue`s to
the next pass without closing the sender (line 142); a serve-phase break
closes the sender (line 259) and either loops (reconnect) or, when an
unknown send error cleared `restart`, returns. -/
def start (w : World) (handlers : List TransactionHandler)
    (endpoint : String) :
    List CycleEnv → Nat → Nat → List ProcAction × StartOutcome
  | [], _, _ => ([], .outOfCycles)
  | c :: cs, rng, connId =>
    let r := register handlers c.regEnv rng
    if r.1 then
      let s := serveLoop w handlers c.events
      match s.2 with
      | .reconnect =>
        let t := start w handlers endpoint cs r.2.2 (connId + 1)
        (ProcAction.connect endpoint connId :: r.2.1 ++ ProcAction.regSuccess ::
          s.1 ++ ProcAction.closeSender connId :: t.1, t.2)
      | .terminate =>
        (ProcAction.connect endpoint connId :: r.2.1 ++ ProcAction.regSuccess ::
          s.1 ++ [ProcAction.closeSender connId], .terminated)
      | .blocked =>
        (ProcAction.connect endpoint connId :: r.2.1 ++ ProcAction.regSuccess ::
          s.1, .blocked)
      | .panicked =>
        (ProcAction.connect endpoint connId :: r.2.1 ++ ProcAction.regSuccess ::
          s.1, .panicked)
    else
      let t := start w handlers endpoint cs r.2.2 (connId + 1)
      (ProcAction.connect endpoint connId :: r.2.1 ++ t.1, t.2)

/-- The (family, version, namespaces) registration pairs of a registry:
handlers in insertion order, versions in declared order. -/
def regPairs (handlers : List TransactionHandler) :
    List (String × String × List String) :=
  handlers.flatMap fun h =>
    h.family_versions.map fun v => (h.family_name, v, h.namespaces)

/-- The registration sends expected for a pair list, with correlation ids
drawn from successive counter values starting at `rng`. -/
def sendsFor : List (String × String × List String) → Nat → List ProcAction
  | [], _ => []
  | p :: rest, rng =>
    ProcAction.regSend p.1 p.2.1 p.2.2 (generate_correlation_id rng) ::
      sendsFor rest (rng + 1)

/-- The correlation id carried by a registration send, if the action is
one. -/
def ProcAction.sentCid : ProcAction → Option String
  | .regSend _ _ _ c => some c
  | _ => none

/-- Whether an action is a reply. -/
def isReply : ProcAction → Bool
  | .reply _ _ _ => true
  | _ => false

/-- Whether an action is a sender close. -/
def isCloseSender : ProcAction → Bool
  | .closeSender _ => true
  | _ => false

/-- The registration handshake over an already-flattened pair list; the
nested loops of register() traverse exactly this flattening (lemma
`registerHandlers_eq_registerPairs`). -/
def registerPairs (env : Nat → RegPairEnv) :
    List (String × String × List String) → Nat → Nat →
      Bool × List ProcAction × Nat × Nat
  | [], p, rng => (true, [], p, rng)
  | pr :: rest, p, rng =>
    let e := env p
    if e.serOk then
      let sendAct :=
        ProcAction.regSend pr.1 pr.2.1 pr.2.2 (generate_correlation_id rng)
      if e.sendOk then
        if e.ackOk then
          let r := registerPairs env rest (p + 1) (rng + 1)
          (r.1, sendAct :: r.2.1, r.2.2)
        else (false, [sendAct], p + 1, rng + 1)
      else (false, [sendAct], p + 1, rng + 1)
    else (false, [], p + 1, rng)

/-- An event whose envelope comes with a failing response serialization. -/
def serFailEvent : RecvEvent → Bool
  | .msg _ false _ => true
  | _ => false

/-- Fixture: a world whose payloads all decode to the same request. -/
def wTest : World := ⟨fun _ => some ⟨"ctx", []⟩⟩

/-- Fixture: a world in which no payload decodes. -/
def wNone : World := ⟨fun _ => none⟩

/-- Fixture: a handler whose apply succeeds. -/
def hOK : TransactionHandler := ⟨"F", ["v1"], ["ns"], fun _ => .ok ()⟩

/-- Fixture: a handler whose apply reports an invalid transaction. -/
def hInv : TransactionHandler :=
  ⟨"G", ["v1"], [], fun _ => .error (.InvalidTransaction "bad sig")⟩

/-- Fixture: registration outcomes that always succeed. -/
def envAllOk : Nat → RegPairEnv := fun _ => ⟨true, true, true⟩

/-- Fixture: registration outcomes whose sends always fail. -/
def envSendFail : Nat → RegPairEnv := fun _ => ⟨true, false, true⟩

/-- Fixture: a process-request envelope. -/
def mReq : Message := ⟨.TP_PROCESS_REQUEST, "corr1", [1]⟩

/-- Fixture: an envelope of an unhandled message type. -/
def mOther : Message := ⟨.PING_REQUEST, "corr2", [2]⟩

/-! ## List-splitting helpers -/

theorem gci_inj {a b : Nat}
    (h : generate_correlation_id a = generate_correlation_id b) : a = b := by
  simpa [generate_correlation_id] using
    congrArg (fun s => s.data.length) h

theorem split_nil {α : Type} {x : α} {l₁ l₂ : List α}
    (h : ([] : List α) = l₁ ++ x :: l₂) : False := by
  cases l₁ <;> simp_all

theorem split_singleton {α : Type} {a x : α} {l₁ l₂ : List α}
    (h : [a] = l₁ ++ x :: l₂) : l₁ = [] ∧ a = x ∧ l₂ = [] := by
  cases l₁ with
  | nil => simp_all
  | cons b t => cases t <;> simp_all

theorem split_pair {α : Type} {a b x : α} {l₁ l₂ : List α}
    (h : [a, b] = l₁ ++ x :: l₂) :
    (l₁ = [] ∧ a = x ∧ l₂ = [b]) ∨ (l₁ = [a] ∧ b = x ∧ l₂ = []) := by
  cases l₁ with
  | nil => simp_all
  | cons c t =>
    cases t with
    | nil => simp_all
    | cons d t2 => cases t2 <;> simp_all

theorem append_split_at {α : Type} {x : α} :
    ∀ {A B l₁ l₂ : List α}, A ++ B = l₁ ++ x :: l₂ →
    (∃ l₂', A = l₁ ++ x :: l₂' ∧ l₂ = l₂' ++ B) ∨
    (∃ l₁', B = l₁' ++ x :: l₂ ∧ l₁ = A ++ l₁')
  | [], B, l₁, l₂, h => .inr ⟨l₁, by simpa using h, by simp⟩
  | a :: A', B, l₁, l₂, h => by
    cases l₁ with
    | nil =>
      obtain ⟨rfl, h2⟩ := List.cons.inj (by simpa using h)
      exact .inl ⟨A', by simp, h2.symm⟩
    | cons b l₁' =>
      obtain ⟨rfl, h2⟩ := List.cons.inj (by simpa using h)
      rcases append_split_at h2 with ⟨l₂', hA, hl⟩ | ⟨l₁'', hB, hl⟩
      · exact .inl ⟨l₂', by simp [hA], hl⟩
      · exact .inr ⟨l₁'', hB, by simp [hl]⟩

theorem split_skip {α : Type} {x : α} {A B l₁ l₂ : List α}
    (h : A ++ B = l₁ ++ x :: l₂) (hx : x ∉ A) :
    ∃ l₁', B = l₁' ++ x :: l₂ ∧ l₁ = A ++ l₁' := by
  rcases append_split_at h with ⟨l₂', hA, _⟩ | ok
  · exact absurd (by simp [hA] : x ∈ A) hx
  · exact ok

theorem split_cons_ne {α : Type} {y x : α} {T l₁ l₂ : List α}
    (h : y :: T = l₁ ++ x :: l₂) (hxy : y ≠ x) :
    ∃ l₁', l₁ = y :: l₁' ∧ T = l₁' ++ x :: l₂ := by
  cases l₁ with
  | nil => exact absurd (List.cons.inj (by simpa using h)).1 hxy
  | cons b l₁' =>
    obtain ⟨rfl, h2⟩ := List.cons.inj (by simpa using h)
    exact ⟨l₁', rfl, h2⟩

/-! ## Registration lemmas -/

theorem registerVersions_eq (h : TransactionHandler) (env : Nat → RegPairEnv) :
    ∀ (vs : List String) (p rng : Nat),
      registerVersions h env vs p rng =
        registerPairs env (vs.map fun v => (h.family_name, v, h.namespaces))
          p rng := by
  intro vs
  induction vs with
  | nil => intro p rng; rfl
  | cons v rest ih =>
    intro p rng
    cases hser : (env p).serOk <;> cases hsend : (env p).sendOk <;>
      cases hack : (env p).ackOk <;>
        simp [registerVersions, registerPairs, hser, hsend, hack, ih]

theorem registerPairs_append (env : Nat → RegPairEnv) :
    ∀ (l₁ l₂ : List (String × String × List String)) (p rng : Nat),
      registerPairs env (l₁ ++ l₂) p rng =
        (let r := registerPairs env l₁ p rng
         if r.1 then
           let r2 := registerPairs env l₂ r.2.2.1 r.2.2.2
           (r2.1, r.2.1 ++ r2.2.1, r2.2.2)
         else r) := by
  intro l₁
  induction l₁ with
  | nil => intro l₂ p rng; rfl
  | cons pr rest ih =>
    intro l₂ p rng
    cases hser : (env p).serOk <;> cases hsend : (env p).sendOk <;>
      cases hack : (env p).ackOk <;>
        simp [registerPairs, hser, hsend, hack, ih] <;>
          cases hok : (registerPairs env rest (p + 1) (rng + 1)).1 <;>
            simp [hok]

theorem prod4_eta_false {r : Bool × List ProcAction × Nat × Nat}
    (h : r.1 = false) : (false, r.2) = r := by
  rw [← h]

theorem registerHandlers_eq (env : Nat → RegPairEnv) :
    ∀ (hs : List TransactionHandler) (p rng : Nat),
      registerHandlers env hs p rng = registerPairs env (regPairs hs) p rng := by
  intro hs
  induction hs with
  | nil => intro p rng; rfl
  | cons h rest ih =>
    intro p rng
    simp only [registerHandlers, regPairs, List.flatMap_cons,
      registerVersions_eq h env, registerPairs_append env]
    have hsplit : (h.family_versions.map
        fun v => (h.family_name, v, h.namespaces)) ++ rest.flatMap
          (fun h2 => h2.family_versions.map
            fun v => (h2.family_name, v, h2.namespaces)) =
        (h.family_versions.map fun v => (h.family_name, v, h.namespaces)) ++
          regPairs rest := by simp [regPairs]
    cases hok : (registerPairs env (h.family_versions.map
        fun v => (h.family_name, v, h.namespaces)) p rng).1
    · simp only [hok, Bool.false_eq_true, if_false]
      exact prod4_eta_false hok
    · simp [hok, ih, regPairs]

theorem register_eq (handlers : List TransactionHandler)
    (env : Nat → RegPairEnv) (rng : Nat) :
    register handlers env rng =
      (let r := registerPairs env (regPairs handlers) 0 rng
       (r.1, r.2.1, r.2.2.2)) := by
  simp [register, registerHandlers_eq]

theorem allOk_parts {e : RegPairEnv} (h : e.allOk = true) :
    e.serOk = true ∧ e.sendOk = true ∧ e.ackOk = true := by
  revert h; simp [RegPairEnv.allOk, Bool.and_eq_true, and_assoc]

theorem registerPairs_allOk (env : Nat → RegPairEnv) :
    ∀ (ps : List (String × String × List String)) (p rng : Nat),
      (∀ i, i < ps.length → (env (p + i)).allOk = true) →
      registerPairs env ps p rng =
        (true, sendsFor ps rng, p + ps.length, rng + ps.length) := by
  intro ps
  induction ps with
  | nil => intro p rng _; simp [registerPairs, sendsFor]
  | cons pr rest ih =>
    intro p rng hall
    have h0 : (env p).allOk = true := by simpa using hall 0 (by simp)
    obtain ⟨hser, hsend, hack⟩ := allOk_parts h0
    have hrest : ∀ i, i < rest.length → (env (p + 1 + i)).allOk = true := by
      intro i hi
      have := hall (i + 1) (by simpa using Nat.succ_lt_succ hi)
      simpa [Nat.add_assoc, Nat.add_comm 1 i] using this
    simp [registerPairs, hser, hsend, hack, ih (p + 1) (rng + 1) hrest,
      sendsFor, Nat.add_assoc, Nat.add_comm 1 rest.length]

theorem registerPairs_ok_true (env : Nat → RegPairEnv) :
    ∀ (ps : List (String × String × List String)) (p rng : Nat),
      (registerPairs env ps p rng).1 = true →
      ∀ i, i < ps.length → (env (p + i)).allOk = true := by
  intro ps
  induction ps with
  | nil => intro p rng _ i hi; simp at hi
  | cons pr rest ih =>
    intro p rng hok i hi
    by_cases hser : (env p).serOk = true
    · by_cases hsend : (env p).sendOk = true
      · by_cases hack : (env p).ackOk = true
        · have htail : (registerPairs env rest (p + 1) (rng + 1)).1 = true := by
            simpa [registerPairs, hser, hsend, hack] using hok
          cases i with
          | zero =>
            simp [RegPairEnv.allOk, hser, hsend, hack]
          | succ j =>
            have hj : j < rest.length := by
              simpa using Nat.lt_of_succ_lt_succ hi
            have := ih (p + 1) (rng + 1) htail j hj
            simpa [Nat.add_assoc, Nat.add_comm 1 j] using this
        · simp [registerPairs, hser, hsend,
            Bool.of_not_eq_true hack] at hok
      · simp [registerPairs, hser, Bool.of_not_eq_true hsend] at hok
    · simp [registerPairs, Bool.of_not_eq_true hser] at hok

theorem registerPairs_acts_shape (env : Nat → RegPairEnv) :
    ∀ (ps : List (String × String × List String)) (p rng : Nat),
      ∃ j, (registerPairs env ps p rng).2.1 = sendsFor (ps.take j) rng := by
  intro ps
  induction ps with
  | nil => intro p rng; exact ⟨0, by simp [registerPairs, sendsFor]⟩
  | cons pr rest ih =>
    intro p rng
    by_cases hser : (env p).serOk = true
    · by_cases hsend : (env p).sendOk = true
      · by_cases hack : (env p).ackOk = true
        · obtain ⟨j, hj⟩ := ih (p + 1) (rng + 1)
          exact ⟨j + 1, by
            simp [registerPairs, hser, hsend, hack, hj, sendsFor]⟩
        · exact ⟨1, by simp [registerPairs, hser, hsend,
            Bool.of_not_eq_true hack, sendsFor]⟩
      · exact ⟨1, by simp [registerPairs, hser,
          Bool.of_not_eq_true hsend, sendsFor]⟩
    · exact ⟨0, by simp [registerPairs, Bool.of_not_eq_true hser, sendsFor]⟩

theorem registerPairs_firstFail (env : Nat → RegPairEnv) :
    ∀ (ps : List (String × String × List String)) (p rng k : Nat),
      k < ps.length →
      (∀ i, i < k → (env (p + i)).allOk = true) →
      (env (p + k)).allOk = false →
      (registerPairs env ps p rng).1 = false ∧
      (registerPairs env ps p rng).2.1 =
        sendsFor (ps.take (if (env (p + k)).serOk then k + 1 else k)) rng := by
  intro ps
  induction ps with
  | nil => intro p rng k hk _ _; simp at hk
  | cons pr rest ih =>
    intro p rng k hk hpre hfail
    cases k with
    | zero =>
      simp only [Nat.add_zero] at hfail
      by_cases hser : (env p).serOk = true
      · have hsa : ¬((env p).sendOk = true ∧ (env p).ackOk = true) := by
          intro hpair
          simp [RegPairEnv.allOk, hser, hpair.1, hpair.2] at hfail
        by_cases hsend : (env p).sendOk = true
        · have hack : (env p).ackOk = false := by
            cases hac2 : (env p).ackOk
            · rfl
            · exact absurd ⟨hsend, hac2⟩ hsa
          simp [registerPairs, hser, hsend, hack, sendsFor]
        · simp [registerPairs, hser, Bool.of_not_eq_true hsend, sendsFor]
      · simp [registerPairs, Bool.of_not_eq_true hser, sendsFor]
    | succ j =>
      have h0 : (env p).allOk = true := by simpa using hpre 0 (Nat.succ_pos j)
      obtain ⟨hser, hsend, hack⟩ := allOk_parts h0
      have hj : j < rest.length := by simpa using Nat.lt_of_succ_lt_succ hk
      have hpre' : ∀ i, i < j → (env (p + 1 + i)).allOk = true := by
        intro i hi
        have := hpre (i + 1) (Nat.succ_lt_succ hi)
        simpa [Nat.add_assoc, Nat.add_comm 1 i] using this
      have hfail' : (env (p + 1 + j)).allOk = false := by
        have heq : p + 1 + j = p + (j + 1) := by omega
        rw [heq]; exact hfail
      obtain ⟨ihok, ihacts⟩ := ih (p + 1) (rng + 1) j hj hpre' hfail'
      have heq : p + 1 + j = p + (j + 1) := by omega
      constructor
      · simp [registerPairs, hser, hsend, hack, ihok]
      · rw [heq] at ihacts
        cases hserk : (env (p + (j + 1))).serOk <;>
          simp [registerPairs, hser, hsend, hack, ihacts, hserk, sendsFor]

theorem sendsFor_cid_mem :
    ∀ (ps : List (String × String × List String)) (rng : Nat) (c : String),
      c ∈ (sendsFor ps rng).filterMap ProcAction.sentCid →
      ∃ i, i < ps.length ∧ c = generate_correlation_id (rng + i) := by
  intro ps
  induction ps with
  | nil => intro rng c hc; simp [sendsFor] at hc
  | cons pr rest ih =>
    intro rng c hc
    simp only [sendsFor, List.filterMap_cons, ProcAction.sentCid] at hc
    rcases List.mem_cons.mp hc with rfl | hc2
    · exact ⟨0, by simp, by simp⟩
    · obtain ⟨i, hi, hceq⟩ := ih (rng + 1) c hc2
      refine ⟨i + 1, by simpa using Nat.succ_lt_succ hi, ?_⟩
      rw [hceq]
      exact congrArg generate_correlation_id (by omega)

theorem sendsFor_nodup :
    ∀ (ps : List (String × String × List String)) (rng : Nat),
      ((sendsFor ps rng).filterMap ProcAction.sentCid).Nodup := by
  intro ps
  induction ps with
  | nil => intro rng; simp [sendsFor]
  | cons pr rest ih =>
    intro rng
    simp only [sendsFor, List.filterMap_cons, ProcAction.sentCid]
    refine List.nodup_cons.mpr ⟨?_, ih (rng + 1)⟩
    intro hmem
    obtain ⟨i, _, hceq⟩ := sendsFor_cid_mem rest (rng + 1) _ hmem
    have := gci_inj hceq
    omega

theorem sendsFor_regSend_mem :
    ∀ (ps : List (String × String × List String)) (rng : Nat)
      (pr : String × String × List String), pr ∈ ps →
      ∃ cid, ProcAction.regSend pr.1 pr.2.1 pr.2.2 cid ∈ sendsFor ps rng := by
  intro ps
  induction ps with
  | nil => intro rng pr hpr; simp at hpr
  | cons q rest ih =>
    intro rng pr hpr
    rcases List.mem_cons.mp hpr with rfl | htail
    · exact ⟨generate_correlation_id rng, by simp [sendsFor]⟩
    · obtain ⟨cid, hcid⟩ := ih (rng + 1) pr htail
      exact ⟨cid, by simp [sendsFor, hcid]⟩

theorem sendsFor_all_regSend :
    ∀ (ps : List (String × String × List String)) (rng : Nat)
      (a : ProcAction), a ∈ sendsFor ps rng →
      ∃ f v ns c, a = ProcAction.regSend f v ns c := by
  intro ps
  induction ps with
  | nil => intro rng a ha; simp [sendsFor] at ha
  | cons pr rest ih =>
    intro rng a ha
    rcases List.mem_cons.mp ha with rfl | htail
    · exact ⟨pr.1, pr.2.1, pr.2.2, generate_correlation_id rng, rfl⟩
    · exact ih (rng + 1) a htail

theorem register_acts_regSend (hs : List TransactionHandler)
    (env : Nat → RegPairEnv) (rng : Nat) :
    ∀ a ∈ (register hs env rng).2.1, ∃ f v ns c,
      a = ProcAction.regSend f v ns c := by
  intro a ha
  rw [register_eq] at ha
  obtain ⟨j, hj⟩ := registerPairs_acts_shape env (regPairs hs) 0 rng
  rw [show (let r := registerPairs env (regPairs hs) 0 rng
      (r.1, r.2.1, r.2.2.2)).2.1 = (registerPairs env (regPairs hs) 0 rng).2.1
    from rfl, hj] at ha
  exact sendsFor_all_regSend _ rng a ha

theorem register_true_acts (hs : List TransactionHandler)
    (env : Nat → RegPairEnv) (rng : Nat)
    (h : (register hs env rng).1 = true) :
    (register hs env rng).2.1 = sendsFor (regPairs hs) rng := by
  have h' : (registerPairs env (regPairs hs) 0 rng).1 = true := by
    simpa [register_eq] using h
  have hall := registerPairs_ok_true env (regPairs hs) 0 rng h'
  have hres := registerPairs_allOk env (regPairs hs) 0 rng hall
  simp [register_eq, hres]

/-- C2: register() iterates the (handler, version) pairs in registry
insertion order and declared version order, sending exactly one
registration request per pair with a fresh (pairwise-distinct) correlation
id; it returns true iff every pair's external calls succeed; on the first
failing pair it returns false immediately, the requests sent being exactly
those of the preceding pairs — plus the failing pair's own request when its
failure was in the send or the acknowledgement rather than in
serialization. -/
theorem register_correct (hs : List TransactionHandler)
    (env : Nat → RegPairEnv) (rng : Nat) :
    ((register hs env rng).1 = true ↔
      ∀ i, i < (regPairs hs).length → (env i).allOk = true) ∧
    ((∀ i, i < (regPairs hs).length → (env i).allOk = true) →
      register hs env rng =
        (true, sendsFor (regPairs hs) rng, rng + (regPairs hs).length)) ∧
    ((register hs env rng).2.1.filterMap ProcAction.sentCid).Nodup ∧
    (∀ k, k < (regPairs hs).length →
      (∀ i, i < k → (env i).allOk = true) → (env k).allOk = false →
      (register hs env rng).1 = false ∧
      (register hs env rng).2.1 =
        sendsFor ((regPairs hs).take (if (env k).serOk then k + 1 else k))
          rng) := by
  refine ⟨⟨?_, ?_⟩, ?_, ?_, ?_⟩
  · intro h i hi
    have h' : (registerPairs env (regPairs hs) 0 rng).1 = true := by
      simpa [register_eq] using h
    simpa using registerPairs_ok_true env (regPairs hs) 0 rng h' i hi
  · intro hall
    have := registerPairs_allOk env (regPairs hs) 0 rng
      (fun i hi => by simpa using hall i hi)
    simp [register_eq, this]
  · intro hall
    have := registerPairs_allOk env (regPairs hs) 0 rng
      (fun i hi => by simpa using hall i hi)
    simp [register_eq, this]
  · obtain ⟨j, hj⟩ := registerPairs_acts_shape env (regPairs hs) 0 rng
    have : (register hs env rng).2.1 =
        sendsFor ((regPairs hs).take j) rng := by
      simp [register_eq, hj]
    rw [this]
    exact sendsFor_nodup _ rng
  · intro k hk hpre hf
    have hff := registerPairs_firstFail env (regPairs hs) 0 rng k hk
      (fun i hi => by simpa using hpre i hi) (by simpa using hf)
    constructor
    · simp [register_eq, hff.1]
    · have h2 := hff.2
      simp only [Nat.zero_add] at h2
      simp [register_eq, h2]

/-- Witness for register_correct: one handler with one version and an
all-successful environment registers completely. -/
theorem register_correct_witness :
    register [hOK] envAllOk 0 =
      (true, sendsFor (regPairs [hOK]) 0, 0 + (regPairs [hOK]).length) :=
  (register_correct [hOK] envAllOk 0).2.1 (fun i hi => rfl)

/-! ## Serve-step and serve-loop lemmas -/

theorem serveStep_cases (w : World) (hs : List TransactionHandler)
    (ev : RecvEvent) :
    (serveStep w hs ev).1 = [] ∨
    (∃ req, serveStep w hs ev = ([.handlerInvoked 0 req], .cont)) ∨
    (∃ req c resp o, serveStep w hs ev =
      ([.handlerInvoked 0 req, .reply c resp o], replyCtl o)) ∨
    (∃ c resp o, serveStep w hs ev = ([.reply c resp o], replyCtl o)) := by
  cases ev with
  | transportErr => exact .inl rfl
  | recvDisconnected => exact .inl rfl
  | recvOtherErr => exact .inl rfl
  | msg m serOk ro =>
    obtain ⟨mt, cid, content⟩ := m
    cases mt
    case TP_PROCESS_REQUEST =>
      cases hp : w.parseProcessRequest content with
      | none => exact .inl (by simp [serveStep, hp])
      | some req =>
        cases hs with
        | nil => exact .inl (by simp [serveStep, hp])
        | cons h t =>
          cases serOk
          · exact .inr (.inl ⟨req, by simp [serveStep, hp]⟩)
          · exact .inr (.inr (.inl ⟨req, cid, responseFor (h.apply req), ro,
              by simp [serveStep, hp]⟩))
    all_goals
      cases serOk
      · exact .inl (by simp [serveStep])
      · exact .inr (.inr (.inr ⟨cid,
          ⟨.INTERNAL_ERROR, some "not implemented..."⟩, ro,
          by simp [serveStep]⟩))

theorem serveStep_reply_last (w : World) (hs : List TransactionHandler)
    (ev : RecvEvent) {la lb : List ProcAction} {c : String}
    {resp : TpProcessResponse} {o : SendOutcome}
    (h : (serveStep w hs ev).1 = la ++ .reply c resp o :: lb) :
    lb = [] ∧ (serveStep w hs ev).2 = replyCtl o := by
  rcases serveStep_cases w hs ev with hnil | ⟨req, heq⟩ |
    ⟨req, c2, r2, o2, heq⟩ | ⟨c2, r2, o2, heq⟩
  · rw [hnil] at h; exact (split_nil h).elim
  · have h' : [ProcAction.handlerInvoked 0 req] =
        la ++ .reply c resp o :: lb := by rw [heq] at h; exact h
    obtain ⟨-, habs, -⟩ := split_singleton h'
    exact absurd habs (by simp)
  · have h' : [ProcAction.handlerInvoked 0 req, .reply c2 r2 o2] =
        la ++ .reply c resp o :: lb := by rw [heq] at h; exact h
    rcases split_pair h' with ⟨-, habs, -⟩ | ⟨-, heq2, hlb⟩
    · exact absurd habs (by simp)
    · have ho : o2 = o := by
        have := heq2
        simp only [ProcAction.reply.injEq] at this
        exact this.2.2
      refine ⟨hlb, ?_⟩
      rw [heq, ← ho]
  · have h' : [ProcAction.reply c2 r2 o2] =
        la ++ .reply c resp o :: lb := by rw [heq] at h; exact h
    obtain ⟨-, heq2, hlb⟩ := split_singleton h'
    have ho : o2 = o := by
      have := heq2
      simp only [ProcAction.reply.injEq] at this
      exact this.2.2
    refine ⟨hlb, ?_⟩
    rw [heq, ← ho]

theorem serveStep_acts_types (w : World) (hs : List TransactionHandler)
    (ev : RecvEvent) :
    ∀ a ∈ (serveStep w hs ev).1,
      (∃ k req, a = ProcAction.handlerInvoked k req) ∨
      (∃ c resp o, a = ProcAction.reply c resp o) := by
  rcases serveStep_cases w hs ev with hnil | ⟨req, heq⟩ |
    ⟨req, c2, r2, o2, heq⟩ | ⟨c2, r2, o2, heq⟩
  · intro a ha; rw [hnil] at ha; simp at ha
  · intro a ha
    rw [heq] at ha
    simp only [List.mem_singleton] at ha
    exact .inl ⟨0, req, ha⟩
  · intro a ha
    rw [heq] at ha
    rcases List.mem_cons.mp ha with rfl | ha2
    · exact .inl ⟨0, req, rfl⟩
    · simp only [List.mem_singleton] at ha2
      exact .inr ⟨c2, r2, o2, ha2⟩
  · intro a ha
    rw [heq] at ha
    simp only [List.mem_singleton] at ha
    exact .inr ⟨c2, r2, o2, ha⟩

theorem serveStep_panicked (w : World) (hs : List TransactionHandler)
    (ev : RecvEvent) (h : (serveStep w hs ev).2 = .panicked) :
    (serveStep w hs ev).1 = [] ∧ (hs = [] ∨ serFailEvent ev = true) := by
  cases ev with
  | transportErr => simp [serveStep] at h
  | recvDisconnected => simp [serveStep] at h
  | recvOtherErr => simp [serveStep] at h
  | msg m serOk ro =>
    obtain ⟨mt, cid, content⟩ := m
    cases mt
    case TP_PROCESS_REQUEST =>
      cases hp : w.parseProcessRequest content with
      | none => simp [serveStep, hp] at h
      | some req =>
        cases hs with
        | nil => exact ⟨by simp [serveStep, hp], .inl rfl⟩
        | cons h0 t =>
          cases serOk
          · simp [serveStep, hp] at h
          · cases ro <;> simp [serveStep, hp, replyCtl] at h
    all_goals
      cases serOk
      · exact ⟨by simp [serveStep], .inr rfl⟩
      · cases ro <;> simp [serveStep, replyCtl] at h

theorem serveLoop_cons_cont (w : World) (hs : List TransactionHandler)
    (ev : RecvEvent) (rest : List RecvEvent)
    (h : (serveStep w hs ev).2 = .cont) :
    serveLoop w hs (ev :: rest) =
      (ProcAction.recv ev :: (serveStep w hs ev).1 ++ (serveLoop w hs rest).1,
        (serveLoop w hs rest).2) := by
  simp only [serveLoop]
  rw [h]

theorem serveLoop_cons_reconnect (w : World) (hs : List TransactionHandler)
    (ev : RecvEvent) (rest : List RecvEvent)
    (h : (serveStep w hs ev).2 = .breakReconnect) :
    serveLoop w hs (ev :: rest) =
      (ProcAction.recv ev :: (serveStep w hs ev).1, .reconnect) := by
  simp only [serveLoop]
  rw [h]

theorem serveLoop_cons_terminate (w : World) (hs : List TransactionHandler)
    (ev : RecvEvent) (rest : List RecvEvent)
    (h : (serveStep w hs ev).2 = .breakTerminate) :
    serveLoop w hs (ev :: rest) =
      (ProcAction.recv ev :: (serveStep w hs ev).1, .terminate) := by
  simp only [serveLoop]
  rw [h]

theorem serveLoop_cons_panicked (w : World) (hs : List TransactionHandler)
    (ev : RecvEvent) (rest : List RecvEvent)
    (h : (serveStep w hs ev).2 = .panicked) :
    serveLoop w hs (ev :: rest) =
      (ProcAction.recv ev :: (serveStep w hs ev).1, .panicked) := by
  simp only [serveLoop]
  rw [h]

theorem serveLoop_acts_types (w : World) (hs : List TransactionHandler) :
    ∀ (evs : List RecvEvent), ∀ a ∈ (serveLoop w hs evs).1,
      (∃ e2, a = ProcAction.recv e2) ∨
      (∃ k req, a = ProcAction.handlerInvoked k req) ∨
      (∃ c resp o, a = ProcAction.reply c resp o) := by
  intro evs
  induction evs with
  | nil => intro a ha; simp [serveLoop] at ha
  | cons ev rest ih =>
    intro a ha
    have hstep := serveStep_acts_types w hs ev
    cases hctl : (serveStep w hs ev).2
    case cont =>
      rw [serveLoop_cons_cont w hs ev rest hctl] at ha
      rcases List.mem_cons.mp ha with rfl | ha2
      · exact .inl ⟨ev, rfl⟩
      · rcases List.mem_append.mp ha2 with ha3 | ha3
        · rcases hstep a ha3 with hh | hh
          · exact .inr (.inl hh)
          · exact .inr (.inr hh)
        · exact ih a ha3
    case breakReconnect =>
      rw [serveLoop_cons_reconnect w hs ev rest hctl] at ha
      rcases List.mem_cons.mp ha with rfl | ha2
      · exact .inl ⟨ev, rfl⟩
      · rcases hstep a ha2 with hh | hh
        · exact .inr (.inl hh)
        · exact .inr (.inr hh)
    case breakTerminate =>
      rw [serveLoop_cons_terminate w hs ev rest hctl] at ha
      rcases List.mem_cons.mp ha with rfl | ha2
      · exact .inl ⟨ev, rfl⟩
      · rcases hstep a ha2 with hh | hh
        · exact .inr (.inl hh)
        · exact .inr (.inr hh)
    case panicked =>
      rw [serveLoop_cons_panicked w hs ev rest hctl] at ha
      rcases List.mem_cons.mp ha with rfl | ha2
      · exact .inl ⟨ev, rfl⟩
      · rcases hstep a ha2 with hh | hh
        · exact .inr (.inl hh)
        · exact .inr (.inr hh)

theorem serveLoop_cons_cont_acts (w : World) (hs : List TransactionHandler)
    (ev : RecvEvent) (rest : List RecvEvent)
    (h : (serveStep w hs ev).2 = .cont) :
    (serveLoop w hs (ev :: rest)).1 =
      ProcAction.recv ev :: (serveStep w hs ev).1 ++ (serveLoop w hs rest).1 := by
  rw [serveLoop_cons_cont w hs ev rest h]

theorem serveLoop_cons_cont_exit (w : World) (hs : List TransactionHandler)
    (ev : RecvEvent) (rest : List RecvEvent)
    (h : (serveStep w hs ev).2 = .cont) :
    (serveLoop w hs (ev :: rest)).2 = (serveLoop w hs rest).2 := by
  rw [serveLoop_cons_cont w hs ev rest h]

theorem serveLoop_cons_reconnect_acts (w : World)
    (hs : List TransactionHandler) (ev : RecvEvent) (rest : List RecvEvent)
    (h : (serveStep w hs ev).2 = .breakReconnect) :
    (serveLoop w hs (ev :: rest)).1 =
      ProcAction.recv ev :: (serveStep w hs ev).1 := by
  rw [serveLoop_cons_reconnect w hs ev rest h]

theorem serveLoop_cons_reconnect_exit (w : World)
    (hs : List TransactionHandler) (ev : RecvEvent) (rest : List RecvEvent)
    (h : (serveStep w hs ev).2 = .breakReconnect) :
    (serveLoop w hs (ev :: rest)).2 = .reconnect := by
  rw [serveLoop_cons_reconnect w hs ev rest h]

theorem serveLoop_cons_terminate_acts (w : World)
    (hs : List TransactionHandler) (ev : RecvEvent) (rest : List RecvEvent)
    (h : (serveStep w hs ev).2 = .breakTerminate) :
    (serveLoop w hs (ev :: rest)).1 =
      ProcAction.recv ev :: (serveStep w hs ev).1 := by
  rw [serveLoop_cons_terminate w hs ev rest h]

theorem serveLoop_cons_terminate_exit (w : World)
    (hs : List TransactionHandler) (ev : RecvEvent) (rest : List RecvEvent)
    (h : (serveStep w hs ev).2 = .breakTerminate) :
    (serveLoop w hs (ev :: rest)).2 = .terminate := by
  rw [serveLoop_cons_terminate w hs ev rest h]

theorem serveLoop_cons_panicked_acts (w : World)
    (hs : List TransactionHandler) (ev : RecvEvent) (rest : List RecvEvent)
    (h : (serveStep w hs ev).2 = .panicked) :
    (serveLoop w hs (ev :: rest)).1 =
      ProcAction.recv ev :: (serveStep w hs ev).1 := by
  rw [serveLoop_cons_panicked w hs ev rest h]

theorem serveLoop_cons_panicked_exit (w : World)
    (hs : List TransactionHandler) (ev : RecvEvent) (rest : List RecvEvent)
    (h : (serveStep w hs ev).2 = .panicked) :
    (serveLoop w hs (ev :: rest)).2 = .panicked := by
  rw [serveLoop_cons_panicked w hs ev rest h]

theorem recv_notin_serveStep (w : World) (hs : List TransactionHandler)
    (ev e2 : RecvEvent) : ProcAction.recv e2 ∉ (serveStep w hs ev).1 := by
  intro hmem
  rcases serveStep_acts_types w hs ev _ hmem with ⟨k, req, habs⟩ |
    ⟨c, resp, o, habs⟩ <;> simp at habs

theorem cons_split {α : Type} {y x : α} {T l₁ l₂ : List α}
    (h : y :: T = l₁ ++ x :: l₂) :
    (l₁ = [] ∧ y = x ∧ T = l₂) ∨
    (∃ l₁', l₁ = y :: l₁' ∧ T = l₁' ++ x :: l₂) := by
  cases l₁ with
  | nil =>
    have h' : y :: T = x :: l₂ := h
    exact .inl ⟨rfl, (List.cons.inj h').1, (List.cons.inj h').2⟩
  | cons b l₁' =>
    have h' : y :: T = b :: (l₁' ++ x :: l₂) := h
    obtain ⟨h1, h2⟩ := List.cons.inj h'
    exact .inr ⟨l₁', by rw [h1], h2⟩

theorem serveLoop_recvDisc_split (w : World) (hs : List TransactionHandler) :
    ∀ (evs : List RecvEvent) (l₁ l₂ : List ProcAction),
      (serveLoop w hs evs).1 =
        l₁ ++ ProcAction.recv .recvDisconnected :: l₂ →
      l₂ = [] ∧ (serveLoop w hs evs).2 = .reconnect := by
  intro evs
  induction evs with
  | nil =>
    intro l₁ l₂ h
    rw [show (serveLoop w hs []).1 = [] from rfl] at h
    exact (split_nil h).elim
  | cons ev rest ih =>
    intro l₁ l₂ h
    cases hctl : (serveStep w hs ev).2
    case cont =>
      rw [serveLoop_cons_cont_acts w hs ev rest hctl] at h
      rcases cons_split h with ⟨-, hhead, h2⟩ | ⟨l₁', -, h2⟩
      · have hev : ev = .recvDisconnected := by injection hhead
        rw [hev] at hctl
        simp [serveStep] at hctl
      · obtain ⟨l₁'', h3, -⟩ :=
          split_skip h2 (recv_notin_serveStep w hs ev .recvDisconnected)
        obtain ⟨hl2, hexit⟩ := ih l₁'' l₂ h3
        exact ⟨hl2, by
          rw [serveLoop_cons_cont_exit w hs ev rest hctl]; exact hexit⟩
    case breakReconnect =>
      rw [serveLoop_cons_reconnect_acts w hs ev rest hctl] at h
      rcases cons_split h with ⟨-, hhead, h2⟩ | ⟨l₁', -, h2⟩
      · have hev : ev = .recvDisconnected := by injection hhead
        rw [hev] at h2
        refine ⟨?_, serveLoop_cons_reconnect_exit w hs ev rest hctl⟩
        rw [show (serveStep w hs RecvEvent.recvDisconnected).1 = []
          from rfl] at h2
        exact h2.symm
      · exact absurd (by rw [h2]; simp)
          (recv_notin_serveStep w hs ev .recvDisconnected)
    case breakTerminate =>
      rw [serveLoop_cons_terminate_acts w hs ev rest hctl] at h
      rcases cons_split h with ⟨-, hhead, h2⟩ | ⟨l₁', -, h2⟩
      · have hev : ev = .recvDisconnected := by injection hhead
        rw [hev] at hctl
        simp [serveStep] at hctl
      · exact absurd (by rw [h2]; simp)
          (recv_notin_serveStep w hs ev .recvDisconnected)
    case panicked =>
      rw [serveLoop_cons_panicked_acts w hs ev rest hctl] at h
      rcases cons_split h with ⟨-, hhead, h2⟩ | ⟨l₁', -, h2⟩
      · have hev : ev = .recvDisconnected := by injection hhead
        rw [hev] at hctl
        simp [serveStep] at hctl
      · exact absurd (by rw [h2]; simp)
          (recv_notin_serveStep w hs ev .recvDisconnected)

theorem serveLoop_reply_split (w : World) (hs : List TransactionHandler) :
    ∀ (evs : List RecvEvent) (l₁ l₂ : List ProcAction) (c : String)
      (resp : TpProcessResponse) (o : SendOutcome),
      (serveLoop w hs evs).1 = l₁ ++ ProcAction.reply c resp o :: l₂ →
      replyCtl o = .cont ∨
      (l₂ = [] ∧
        ((replyCtl o = .breakReconnect ∧
            (serveLoop w hs evs).2 = .reconnect) ∨
          (replyCtl o = .breakTerminate ∧
            (serveLoop w hs evs).2 = .terminate))) := by
  intro evs
  induction evs with
  | nil =>
    intro l₁ l₂ c resp o h
    rw [show (serveLoop w hs []).1 = [] from rfl] at h
    exact (split_nil h).elim
  | cons ev rest ih =>
    intro l₁ l₂ c resp o h
    cases hctl : (serveStep w hs ev).2
    case cont =>
      rw [serveLoop_cons_cont_acts w hs ev rest hctl] at h
      rcases cons_split h with ⟨-, hhead, -⟩ | ⟨l₁', -, h2⟩
      · exact absurd hhead (by simp)
      · rcases append_split_at h2 with ⟨l₂', hA, -⟩ | ⟨l₁'', h3, -⟩
        · obtain ⟨-, hc⟩ := serveStep_reply_last w hs ev hA
          rw [hctl] at hc
          exact .inl hc.symm
        · rcases ih l₁'' l₂ c resp o h3 with hcont | ⟨hl2, hcase⟩
          · exact .inl hcont
          · refine .inr ⟨hl2, ?_⟩
            rw [serveLoop_cons_cont_exit w hs ev rest hctl]
            exact hcase
    case breakReconnect =>
      rw [serveLoop_cons_reconnect_acts w hs ev rest hctl] at h
      rcases cons_split h with ⟨-, hhead, -⟩ | ⟨l₁', -, h2⟩
      · exact absurd hhead (by simp)
      · obtain ⟨hl2, hc⟩ := serveStep_reply_last w hs ev h2
        rw [hctl] at hc
        exact .inr ⟨hl2, .inl ⟨hc.symm,
          serveLoop_cons_reconnect_exit w hs ev rest hctl⟩⟩
    case breakTerminate =>
      rw [serveLoop_cons_terminate_acts w hs ev rest hctl] at h
      rcases cons_split h with ⟨-, hhead, -⟩ | ⟨l₁', -, h2⟩
      · exact absurd hhead (by simp)
      · obtain ⟨hl2, hc⟩ := serveStep_reply_last w hs ev h2
        rw [hctl] at hc
        exact .inr ⟨hl2, .inr ⟨hc.symm,
          serveLoop_cons_terminate_exit w hs ev rest hctl⟩⟩
    case panicked =>
      rw [serveLoop_cons_panicked_acts w hs ev rest hctl] at h
      rcases cons_split h with ⟨-, hhead, -⟩ | ⟨l₁', -, h2⟩
      · exact absurd hhead (by simp)
      · obtain ⟨-, hc⟩ := serveStep_reply_last w hs ev h2
        rw [hctl] at hc
        cases o <;> simp [replyCtl] at hc

theorem serveLoop_replyDisc_split (w : World) (hs : List TransactionHandler)
    (evs : List RecvEvent) (l₁ l₂ : List ProcAction) (c : String)
    (resp : TpProcessResponse)
    (h : (serveLoop w hs evs).1 =
      l₁ ++ ProcAction.reply c resp .DisconnectedError :: l₂) :
    l₂ = [] ∧ (serveLoop w hs evs).2 = .reconnect := by
  rcases serveLoop_reply_split w hs evs l₁ l₂ c resp .DisconnectedError h with
    hcont | ⟨hl2, hcase⟩
  · simp [replyCtl] at hcont
  · rcases hcase with ⟨-, hexit⟩ | ⟨habs, -⟩
    · exact ⟨hl2, hexit⟩
    · simp [replyCtl] at habs

theorem serveLoop_replyUnknown_split (w : World)
    (hs : List TransactionHandler) (evs : List RecvEvent)
    (l₁ l₂ : List ProcAction) (c : String) (resp : TpProcessResponse)
    (h : (serveLoop w hs evs).1 =
      l₁ ++ ProcAction.reply c resp .UnknownError :: l₂) :
    l₂ = [] ∧ (serveLoop w hs evs).2 = .terminate := by
  rcases serveLoop_reply_split w hs evs l₁ l₂ c resp .UnknownError h with
    hcont | ⟨hl2, hcase⟩
  · simp [replyCtl] at hcont
  · rcases hcase with ⟨habs, -⟩ | ⟨-, hexit⟩
    · simp [replyCtl] at habs
    · exact ⟨hl2, hexit⟩

/-! ## Start-loop lemmas -/

theorem start_nil (w : World) (hs : List TransactionHandler)
    (endpoint : String) (rng connId : Nat) :
    start w hs endpoint [] rng connId = ([], .outOfCycles) := rfl

theorem start_cons_regFail (w : World) (hs : List TransactionHandler)
    (endpoint : String) (c : CycleEnv) (cs : List CycleEnv) (rng connId : Nat)
    (h : (register hs c.regEnv rng).1 = false) :
    start w hs endpoint (c :: cs) rng connId =
      (ProcAction.connect endpoint connId :: (register hs c.regEnv rng).2.1 ++
        (start w hs endpoint cs (register hs c.regEnv rng).2.2
          (connId + 1)).1,
       (start w hs endpoint cs (register hs c.regEnv rng).2.2
         (connId + 1)).2) := by
  simp only [start, h, Bool.false_eq_true, if_false]

theorem start_cons_reconnect (w : World) (hs : List TransactionHandler)
    (endpoint : String) (c : CycleEnv) (cs : List CycleEnv) (rng connId : Nat)
    (hreg : (register hs c.regEnv rng).1 = true)
    (hserve : (serveLoop w hs c.events).2 = .reconnect) :
    start w hs endpoint (c :: cs) rng connId =
      (ProcAction.connect endpoint connId :: (register hs c.regEnv rng).2.1 ++
        ProcAction.regSuccess :: (serveLoop w hs c.events).1 ++
        ProcAction.closeSender connId ::
          (start w hs endpoint cs (register hs c.regEnv rng).2.2
            (connId + 1)).1,
       (start w hs endpoint cs (register hs c.regEnv rng).2.2
         (connId + 1)).2) := by
  simp only [start, hreg, if_true, hserve]

theorem start_cons_terminate (w : World) (hs : List TransactionHandler)
    (endpoint : String) (c : CycleEnv) (cs : List CycleEnv) (rng connId : Nat)
    (hreg : (register hs c.regEnv rng).1 = true)
    (hserve : (serveLoop w hs c.events).2 = .terminate) :
    start w hs endpoint (c :: cs) rng connId =
      (ProcAction.connect endpoint connId :: (register hs c.regEnv rng).2.1 ++
        ProcAction.regSuccess :: (serveLoop w hs c.events).1 ++
        [ProcAction.closeSender connId], .terminated) := by
  simp only [start, hreg, if_true, hserve]

theorem start_cons_blocked (w : World) (hs : List TransactionHandler)
    (endpoint : String) (c : CycleEnv) (cs : List CycleEnv) (rng connId : Nat)
    (hreg : (register hs c.regEnv rng).1 = true)
    (hserve : (serveLoop w hs c.events).2 = .blocked) :
    start w hs endpoint (c :: cs) rng connId =
      (ProcAction.connect endpoint connId :: (register hs c.regEnv rng).2.1 ++
        ProcAction.regSuccess :: (serveLoop w hs c.events).1, .blocked) := by
  simp only [start, hreg, if_true, hserve]

theorem start_cons_panicked (w : World) (hs : List TransactionHandler)
    (endpoint : String) (c : CycleEnv) (cs : List CycleEnv) (rng connId : Nat)
    (hreg : (register hs c.regEnv rng).1 = true)
    (hserve : (serveLoop w hs c.events).2 = .panicked) :
    start w hs endpoint (c :: cs) rng connId =
      (ProcAction.connect endpoint connId :: (register hs c.regEnv rng).2.1 ++
        ProcAction.regSuccess :: (serveLoop w hs c.events).1, .panicked) := by
  simp only [start, hreg, if_true, hserve]

theorem notin_register_acts (hs : List TransactionHandler)
    (env : Nat → RegPairEnv) (rng : Nat) {x : ProcAction}
    (hx : ∀ f v ns c, x ≠ ProcAction.regSend f v ns c) :
    x ∉ (register hs env rng).2.1 := by
  intro hmem
  obtain ⟨f, v, ns, c, habs⟩ := register_acts_regSend hs env rng x hmem
  exact hx f v ns c habs

theorem notin_serveLoop_acts (w : World) (hs : List TransactionHandler)
    (evs : List RecvEvent) {x : ProcAction}
    (hx1 : ∀ e2, x ≠ ProcAction.recv e2)
    (hx2 : ∀ k req, x ≠ ProcAction.handlerInvoked k req)
    (hx3 : ∀ c resp o, x ≠ ProcAction.reply c resp o) :
    x ∉ (serveLoop w hs evs).1 := by
  intro hmem
  rcases serveLoop_acts_types w hs evs x hmem with ⟨e2, h⟩ | ⟨k, req, h⟩ |
    ⟨c, resp, o, h⟩
  · exact hx1 e2 h
  · exact hx2 k req h
  · exact hx3 c resp o h

theorem start_connect_endpoint (w : World) (hs : List TransactionHandler)
    (endpoint : String) :
    ∀ (cycles : List CycleEnv) (rng connId : Nat) (e : String) (c2 : Nat),
      ProcAction.connect e c2 ∈ (start w hs endpoint cycles rng connId).1 →
      e = endpoint := by
  intro cycles
  induction cycles with
  | nil => intro rng connId e c2 hmem; simp [start_nil] at hmem
  | cons c cs ih =>
    intro rng connId e c2 hmem
    have hregmem : ProcAction.connect e c2 ∉
        (register hs c.regEnv rng).2.1 :=
      notin_register_acts hs c.regEnv rng (by intro f v ns cid h; simp at h)
    have hservemem : ProcAction.connect e c2 ∉
        (serveLoop w hs c.events).1 :=
      notin_serveLoop_acts w hs c.events
        (by intro e2 h; simp at h) (by intro k req h; simp at h)
        (by intro cid resp o h; simp at h)
    cases hreg : (register hs c.regEnv rng).1
    case false =>
      rw [start_cons_regFail w hs endpoint c cs rng connId hreg] at hmem
      rcases List.mem_cons.mp hmem with heq | hm1
      · exact (by simpa using heq : e = endpoint ∧ c2 = connId).1
      rcases List.mem_append.mp hm1 with hm2 | hm3
      · exact absurd hm2 hregmem
      · exact ih _ (connId + 1) e c2 hm3
    case true =>
      cases hserve : (serveLoop w hs c.events).2
      case reconnect =>
        rw [start_cons_reconnect w hs endpoint c cs rng connId hreg
          hserve] at hmem
        rcases List.mem_cons.mp hmem with heq | hm1
        · exact (by simpa using heq : e = endpoint ∧ c2 = connId).1
        rcases List.mem_append.mp hm1 with hm2 | hm3
        · rcases List.mem_append.mp hm2 with hm4 | hm5
          · exact absurd hm4 hregmem
          rcases List.mem_cons.mp hm5 with heq2 | hm6
          · simp at heq2
          · exact absurd hm6 hservemem
        · rcases List.mem_cons.mp hm3 with heq3 | hm7
          · simp at heq3
          · exact ih _ (connId + 1) e c2 hm7
      case terminate =>
        rw [start_cons_terminate w hs endpoint c cs rng connId hreg
          hserve] at hmem
        rcases List.mem_cons.mp hmem with heq | hm1
        · exact (by simpa using heq : e = endpoint ∧ c2 = connId).1
        rcases List.mem_append.mp hm1 with hm2 | hm3
        · rcases List.mem_append.mp hm2 with hm4 | hm5
          · exact absurd hm4 hregmem
          rcases List.mem_cons.mp hm5 with heq2 | hm6
          · simp at heq2
          · exact absurd hm6 hservemem
        · simp at hm3
      case blocked =>
        rw [start_cons_blocked w hs endpoint c cs rng connId hreg
          hserve] at hmem
        rcases List.mem_cons.mp hmem with heq | hm1
        · exact (by simpa using heq : e = endpoint ∧ c2 = connId).1
        rcases List.mem_append.mp hm1 with hm2 | hm3
        · exact absurd hm2 hregmem
        rcases List.mem_cons.mp hm3 with heq2 | hm4
        · simp at heq2
        · exact absurd hm4 hservemem
      case panicked =>
        rw [start_cons_panicked w hs endpoint c cs rng connId hreg
          hserve] at hmem
        rcases List.mem_cons.mp hmem with heq | hm1
        · exact (by simpa using heq : e = endpoint ∧ c2 = connId).1
        rcases List.mem_append.mp hm1 with hm2 | hm3
        · exact absurd hm2 hregmem
        rcases List.mem_cons.mp hm3 with heq2 | hm4
        · simp at heq2
        · exact absurd hm4 hservemem

theorem start_closeSender_ge (w : World) (hs : List TransactionHandler)
    (endpoint : String) :
    ∀ (cycles : List CycleEnv) (rng connId : Nat) (c2 : Nat),
      ProcAction.closeSender c2 ∈ (start w hs endpoint cycles rng connId).1 →
      connId ≤ c2 := by
  intro cycles
  induction cycles with
  | nil => intro rng connId c2 hmem; simp [start_nil] at hmem
  | cons c cs ih =>
    intro rng connId c2 hmem
    have hregmem : ProcAction.closeSender c2 ∉
        (register hs c.regEnv rng).2.1 :=
      notin_register_acts hs c.regEnv rng (by intro f v ns cid h; simp at h)
    have hservemem : ProcAction.closeSender c2 ∉
        (serveLoop w hs c.events).1 :=
      notin_serveLoop_acts w hs c.events
        (by intro e2 h; simp at h) (by intro k req h; simp at h)
        (by intro cid resp o h; simp at h)
    cases hreg : (register hs c.regEnv rng).1
    case false =>
      rw [start_cons_regFail w hs endpoint c cs rng connId hreg] at hmem
      rcases List.mem_cons.mp hmem with heq | hm1
      · simp at heq
      rcases List.mem_append.mp hm1 with hm2 | hm3
      · exact absurd hm2 hregmem
      · exact Nat.le_of_succ_le (ih _ (connId + 1) c2 hm3)
    case true =>
      cases hserve : (serveLoop w hs c.events).2
      case reconnect =>
        rw [start_cons_reconnect w hs endpoint c cs rng connId hreg
          hserve] at hmem
        rcases List.mem_cons.mp hmem with heq | hm1
        · simp at heq
        rcases List.mem_append.mp hm1 with hm2 | hm3
        · rcases List.mem_append.mp hm2 with hm4 | hm5
          · exact absurd hm4 hregmem
          rcases List.mem_cons.mp hm5 with heq2 | hm6
          · simp at heq2
          · exact absurd hm6 hservemem
        · rcases List.mem_cons.mp hm3 with heq3 | hm7
          · have h12 : c2 = connId := by simpa using heq3
            omega
          · exact Nat.le_of_succ_le (ih _ (connId + 1) c2 hm7)
      case terminate =>
        rw [start_cons_terminate w hs endpoint c cs rng connId hreg
          hserve] at hmem
        rcases List.mem_cons.mp hmem with heq | hm1
        · simp at heq
        rcases List.mem_append.mp hm1 with hm2 | hm3
        · rcases List.mem_append.mp hm2 with hm4 | hm5
          · exact absurd hm4 hregmem
          rcases List.mem_cons.mp hm5 with heq2 | hm6
          · simp at heq2
          · exact absurd hm6 hservemem
        · have h12 : c2 = connId := by simpa using hm3
          omega
      case blocked =>
        rw [start_cons_blocked w hs endpoint c cs rng connId hreg
          hserve] at hmem
        rcases List.mem_cons.mp hmem with heq | hm1
        · simp at heq
        rcases List.mem_append.mp hm1 with hm2 | hm3
        · exact absurd hm2 hregmem
        rcases List.mem_cons.mp hm3 with heq2 | hm4
        · simp at heq2
        · exact absurd hm4 hservemem
      case panicked =>
        rw [start_cons_panicked w hs endpoint c cs rng connId hreg
          hserve] at hmem
        rcases List.mem_cons.mp hmem with heq | hm1
        · simp at heq
        rcases List.mem_append.mp hm1 with hm2 | hm3
        · exact absurd hm2 hregmem
        rcases List.mem_cons.mp hm3 with heq2 | hm4
        · simp at heq2
        · exact absurd hm4 hservemem

theorem start_cons_regFail_acts (w : World) (hs : List TransactionHandler)
    (endpoint : String) (c : CycleEnv) (cs : List CycleEnv) (rng connId : Nat)
    (h : (register hs c.regEnv rng).1 = false) :
    (start w hs endpoint (c :: cs) rng connId).1 =
      ProcAction.connect endpoint connId :: (register hs c.regEnv rng).2.1 ++
        (start w hs endpoint cs (register hs c.regEnv rng).2.2
          (connId + 1)).1 := by
  rw [start_cons_regFail w hs endpoint c cs rng connId h]

theorem start_cons_regFail_exit (w : World) (hs : List TransactionHandler)
    (endpoint : String) (c : CycleEnv) (cs : List CycleEnv) (rng connId : Nat)
    (h : (register hs c.regEnv rng).1 = false) :
    (start w hs endpoint (c :: cs) rng connId).2 =
      (start w hs endpoint cs (register hs c.regEnv rng).2.2
        (connId + 1)).2 := by
  rw [start_cons_regFail w hs endpoint c cs rng connId h]

theorem start_cons_reconnect_acts (w : World) (hs : List TransactionHandler)
    (endpoint : String) (c : CycleEnv) (cs : List CycleEnv) (rng connId : Nat)
    (hreg : (register hs c.regEnv rng).1 = true)
    (hserve : (serveLoop w hs c.events).2 = .reconnect) :
    (start w hs endpoint (c :: cs) rng connId).1 =
      ProcAction.connect endpoint connId :: (register hs c.regEnv rng).2.1 ++
        ProcAction.regSuccess :: (serveLoop w hs c.events).1 ++
        ProcAction.closeSender connId ::
          (start w hs endpoint cs (register hs c.regEnv rng).2.2
            (connId + 1)).1 := by
  rw [start_cons_reconnect w hs endpoint c cs rng connId hreg hserve]

theorem start_cons_reconnect_exit (w : World) (hs : List TransactionHandler)
    (endpoint : String) (c : CycleEnv) (cs : List CycleEnv) (rng connId : Nat)
    (hreg : (register hs c.regEnv rng).1 = true)
    (hserve : (serveLoop w hs c.events).2 = .reconnect) :
    (start w hs endpoint (c :: cs) rng connId).2 =
      (start w hs endpoint cs (register hs c.regEnv rng).2.2
        (connId + 1)).2 := by
  rw [start_cons_reconnect w hs endpoint c cs rng connId hreg hserve]

theorem start_cons_terminate_acts (w : World) (hs : List TransactionHandler)
    (endpoint : String) (c : CycleEnv) (cs : List CycleEnv) (rng connId : Nat)
    (hreg : (register hs c.regEnv rng).1 = true)
    (hserve : (serveLoop w hs c.events).2 = .terminate) :
    (start w hs endpoint (c :: cs) rng connId).1 =
      ProcAction.connect endpoint connId :: (register hs c.regEnv rng).2.1 ++
        ProcAction.regSuccess :: (serveLoop w hs c.events).1 ++
        [ProcAction.closeSender connId] := by
  rw [start_cons_terminate w hs endpoint c cs rng connId hreg hserve]

theorem start_cons_terminate_exit (w : World) (hs : List TransactionHandler)
    (endpoint : String) (c : CycleEnv) (cs : List CycleEnv) (rng connId : Nat)
    (hreg : (register hs c.regEnv rng).1 = true)
    (hserve : (serveLoop w hs c.events).2 = .terminate) :
    (start w hs endpoint (c :: cs) rng connId).2 = .terminated := by
  rw [start_cons_terminate w hs endpoint c cs rng connId hreg hserve]

theorem start_cons_blocked_acts (w : World) (hs : List TransactionHandler)
    (endpoint : String) (c : CycleEnv) (cs : List CycleEnv) (rng connId : Nat)
    (hreg : (register hs c.regEnv rng).1 = true)
    (hserve : (serveLoop w hs c.events).2 = .blocked) :
    (start w hs endpoint (c :: cs) rng connId).1 =
      ProcAction.connect endpoint connId :: (register hs c.regEnv rng).2.1 ++
        ProcAction.regSuccess :: (serveLoop w hs c.events).1 := by
  rw [start_cons_blocked w hs endpoint c cs rng connId hreg hserve]

theorem start_cons_panicked_acts (w : World) (hs : List TransactionHandler)
    (endpoint : String) (c : CycleEnv) (cs : List CycleEnv) (rng connId : Nat)
    (hreg : (register hs c.regEnv rng).1 = true)
    (hserve : (serveLoop w hs c.events).2 = .panicked) :
    (start w hs endpoint (c :: cs) rng connId).1 =
      ProcAction.connect endpoint connId :: (register hs c.regEnv rng).2.1 ++
        ProcAction.regSuccess :: (serveLoop w hs c.events).1 := by
  rw [start_cons_panicked w hs endpoint c cs rng connId hreg hserve]

theorem start_handlerInvoked_needs_reg (w : World)
    (hs : List TransactionHandler) (endpoint : String) :
    ∀ (cycles : List CycleEnv) (rng connId : Nat)
      (l₃ l₄ : List ProcAction) (k : Nat) (req : TpProcessRequest),
      (start w hs endpoint cycles rng connId).1 =
        l₃ ++ ProcAction.handlerInvoked k req :: l₄ →
      ProcAction.regSuccess ∈ l₃ ∧
      ∀ pr ∈ regPairs hs, ∃ cid,
        ProcAction.regSend pr.1 pr.2.1 pr.2.2 cid ∈ l₃ := by
  intro cycles
  induction cycles with
  | nil =>
    intro rng connId l₃ l₄ k req h
    rw [show (start w hs endpoint [] rng connId).1 = [] from rfl] at h
    exact (split_nil h).elim
  | cons c cs ih =>
    intro rng connId l₃ l₄ k req h
    have hxreg : ProcAction.handlerInvoked k req ∉
        (register hs c.regEnv rng).2.1 :=
      notin_register_acts hs c.regEnv rng (by intro f v ns cid hh; simp at hh)
    cases hreg : (register hs c.regEnv rng).1
    case false =>
      rw [start_cons_regFail_acts w hs endpoint c cs rng connId hreg] at h
      rcases cons_split h with ⟨-, hhead, -⟩ | ⟨l₃', hl3, h2⟩
      · exact absurd hhead (by simp)
      obtain ⟨l₃'', h3, hl3'⟩ := split_skip h2 hxreg
      obtain ⟨hsucc, hsends⟩ := ih _ (connId + 1) l₃'' l₄ k req h3
      subst hl3 hl3'
      constructor
      · simp [hsucc]
      · intro pr hpr
        obtain ⟨cid, hcid⟩ := hsends pr hpr
        exact ⟨cid, by simp [hcid]⟩
    case true =>
      have hacts := register_true_acts hs c.regEnv rng hreg
      have hpairmem : ∀ pr ∈ regPairs hs, ∃ cid,
          ProcAction.regSend pr.1 pr.2.1 pr.2.2 cid ∈
            (register hs c.regEnv rng).2.1 := by
        intro pr hpr
        obtain ⟨cid, hcid⟩ := sendsFor_regSend_mem (regPairs hs) rng pr hpr
        exact ⟨cid, by rw [hacts]; exact hcid⟩
      cases hserve : (serveLoop w hs c.events).2
      case reconnect =>
        rw [start_cons_reconnect_acts w hs endpoint c cs rng connId hreg
          hserve] at h
        rcases cons_split h with ⟨-, hhead, -⟩ | ⟨l₃', hl3, h2⟩
        · exact absurd hhead (by simp)
        rcases append_split_at h2 with ⟨l₂', hA, -⟩ | ⟨l'', -, hl3'⟩
        · obtain ⟨l₃'', h3, hl3''⟩ := split_skip hA hxreg
          rcases cons_split h3 with ⟨-, hhead2, -⟩ | ⟨l₃c, hl4, -⟩
          · exact absurd hhead2 (by simp)
          subst hl3 hl3'' hl4
          refine ⟨by simp, fun pr hpr => ?_⟩
          obtain ⟨cid, hcid⟩ := hpairmem pr hpr
          exact ⟨cid, by simp [hcid]⟩
        · subst hl3 hl3'
          refine ⟨by simp, fun pr hpr => ?_⟩
          obtain ⟨cid, hcid⟩ := hpairmem pr hpr
          exact ⟨cid, by simp [hcid]⟩
      case terminate =>
        rw [start_cons_terminate_acts w hs endpoint c cs rng connId hreg
          hserve] at h
        rcases cons_split h with ⟨-, hhead, -⟩ | ⟨l₃', hl3, h2⟩
        · exact absurd hhead (by simp)
        rcases append_split_at h2 with ⟨l₂', hA, -⟩ | ⟨l'', -, hl3'⟩
        · obtain ⟨l₃'', h3, hl3''⟩ := split_skip hA hxreg
          rcases cons_split h3 with ⟨-, hhead2, -⟩ | ⟨l₃c, hl4, -⟩
          · exact absurd hhead2 (by simp)
          subst hl3 hl3'' hl4
          refine ⟨by simp, fun pr hpr => ?_⟩
          obtain ⟨cid, hcid⟩ := hpairmem pr hpr
          exact ⟨cid, by simp [hcid]⟩
        · subst hl3 hl3'
          refine ⟨by simp, fun pr hpr => ?_⟩
          obtain ⟨cid, hcid⟩ := hpairmem pr hpr
          exact ⟨cid, by simp [hcid]⟩
      case blocked =>
        rw [start_cons_blocked_acts w hs endpoint c cs rng connId hreg
          hserve] at h
        rcases cons_split h with ⟨-, hhead, -⟩ | ⟨l₃', hl3, h2⟩
        · exact absurd hhead (by simp)
        obtain ⟨l₃'', h3, hl3''⟩ := split_skip h2 hxreg
        rcases cons_split h3 with ⟨-, hhead2, -⟩ | ⟨l₃c, hl4, -⟩
        · exact absurd hhead2 (by simp)
        subst hl3 hl3'' hl4
        refine ⟨by simp, fun pr hpr => ?_⟩
        obtain ⟨cid, hcid⟩ := hpairmem pr hpr
        exact ⟨cid, by simp [hcid]⟩
      case panicked =>
        rw [start_cons_panicked_acts w hs endpoint c cs rng connId hreg
          hserve] at h
        rcases cons_split h with ⟨-, hhead, -⟩ | ⟨l₃', hl3, h2⟩
        · exact absurd hhead (by simp)
        obtain ⟨l₃'', h3, hl3''⟩ := split_skip h2 hxreg
        rcases cons_split h3 with ⟨-, hhead2, -⟩ | ⟨l₃c, hl4, -⟩
        · exact absurd hhead2 (by simp)
        subst hl3 hl3'' hl4
        refine ⟨by simp, fun pr hpr => ?_⟩
        obtain ⟨cid, hcid⟩ := hpairmem pr hpr
        exact ⟨cid, by simp [hcid]⟩

theorem start_recvDisc_split (w : World) (hs : List TransactionHandler)
    (endpoint : String) :
    ∀ (cycles : List CycleEnv) (rng connId : Nat)
      (l₁ l₂ : List ProcAction),
      (start w hs endpoint cycles rng connId).1 =
        l₁ ++ ProcAction.recv .recvDisconnected :: l₂ →
      ∃ c2 cs2 rng2 k2,
        l₂ = ProcAction.closeSender c2 :: (start w hs endpoint cs2 rng2 k2).1 ∧
        (start w hs endpoint cycles rng connId).2 =
          (start w hs endpoint cs2 rng2 k2).2 := by
  intro cycles
  induction cycles with
  | nil =>
    intro rng connId l₁ l₂ h
    rw [show (start w hs endpoint [] rng connId).1 = [] from rfl] at h
    exact (split_nil h).elim
  | cons c cs ih =>
    intro rng connId l₁ l₂ h
    have hxreg : ProcAction.recv .recvDisconnected ∉
        (register hs c.regEnv rng).2.1 :=
      notin_register_acts hs c.regEnv rng (by intro f v ns cid hh; simp at hh)
    cases hreg : (register hs c.regEnv rng).1
    case false =>
      rw [start_cons_regFail_acts w hs endpoint c cs rng connId hreg] at h
      rcases cons_split h with ⟨-, hhead, -⟩ | ⟨l₁', -, h2⟩
      · exact absurd hhead (by simp)
      obtain ⟨l₁'', h3, -⟩ := split_skip h2 hxreg
      obtain ⟨c2, cs2, rng2, k2, hl2, hexit⟩ := ih _ (connId + 1) l₁'' l₂ h3
      exact ⟨c2, cs2, rng2, k2, hl2,
        (start_cons_regFail_exit w hs endpoint c cs rng connId hreg).trans
          hexit⟩
    case true =>
      cases hserve : (serveLoop w hs c.events).2
      case reconnect =>
        rw [start_cons_reconnect_acts w hs endpoint c cs rng connId hreg
          hserve] at h
        rcases cons_split h with ⟨-, hhead, -⟩ | ⟨l₁', -, h2⟩
        · exact absurd hhead (by simp)
        rcases append_split_at h2 with ⟨l₂', hA, hl₂⟩ | ⟨l₁'', hB, -⟩
        · obtain ⟨l'', h3, -⟩ := split_skip hA hxreg
          rcases cons_split h3 with ⟨-, hhead2, -⟩ | ⟨lc, -, h4⟩
          · exact absurd hhead2 (by simp)
          obtain ⟨hl2nil, -⟩ :=
            serveLoop_recvDisc_split w hs c.events lc l₂' h4
          refine ⟨connId, cs, (register hs c.regEnv rng).2.2, connId + 1,
            ?_, start_cons_reconnect_exit w hs endpoint c cs rng connId
              hreg hserve⟩
          rw [hl₂, hl2nil]
          simp
        · rcases cons_split hB with ⟨-, hhead2, -⟩ | ⟨lc, -, h4⟩
          · exact absurd hhead2 (by simp)
          obtain ⟨c2, cs2, rng2, k2, hl2, hexit⟩ :=
            ih _ (connId + 1) lc l₂ h4
          exact ⟨c2, cs2, rng2, k2, hl2,
            (start_cons_reconnect_exit w hs endpoint c cs rng connId hreg
              hserve).trans hexit⟩
      case terminate =>
        rw [start_cons_terminate_acts w hs endpoint c cs rng connId hreg
          hserve] at h
        rcases cons_split h with ⟨-, hhead, -⟩ | ⟨l₁', -, h2⟩
        · exact absurd hhead (by simp)
        rcases append_split_at h2 with ⟨l₂', hA, -⟩ | ⟨l₁'', hB, -⟩
        · obtain ⟨l'', h3, -⟩ := split_skip hA hxreg
          rcases cons_split h3 with ⟨-, hhead2, -⟩ | ⟨lc, -, h4⟩
          · exact absurd hhead2 (by simp)
          have hx :=
            (serveLoop_recvDisc_split w hs c.events lc l₂' h4).2
          rw [hserve] at hx
          exact absurd hx (by simp)
        · obtain ⟨-, hhead2, -⟩ := split_singleton hB
          exact absurd hhead2 (by simp)
      case blocked =>
        rw [start_cons_blocked_acts w hs endpoint c cs rng connId hreg
          hserve] at h
        rcases cons_split h with ⟨-, hhead, -⟩ | ⟨l₁', -, h2⟩
        · exact absurd hhead (by simp)
        obtain ⟨l'', h3, -⟩ := split_skip h2 hxreg
        rcases cons_split h3 with ⟨-, hhead2, -⟩ | ⟨lc, -, h4⟩
        · exact absurd hhead2 (by simp)
        have hx := (serveLoop_recvDisc_split w hs c.events lc l₂ h4).2
        rw [hserve] at hx
        exact absurd hx (by simp)
      case panicked =>
        rw [start_cons_panicked_acts w hs endpoint c cs rng connId hreg
          hserve] at h
        rcases cons_split h with ⟨-, hhead, -⟩ | ⟨l₁', -, h2⟩
        · exact absurd hhead (by simp)
        obtain ⟨l'', h3, -⟩ := split_skip h2 hxreg
        rcases cons_split h3 with ⟨-, hhead2, -⟩ | ⟨lc, -, h4⟩
        · exact absurd hhead2 (by simp)
        have hx := (serveLoop_recvDisc_split w hs c.events lc l₂ h4).2
        rw [hserve] at hx
        exact absurd hx (by simp)

theorem start_replyDisc_split (w : World) (hs : List TransactionHandler)
    (endpoint : String) :
    ∀ (cycles : List CycleEnv) (rng connId : Nat)
      (l₁ l₂ : List ProcAction) (cid : String) (resp : TpProcessResponse),
      (start w hs endpoint cycles rng connId).1 =
        l₁ ++ ProcAction.reply cid resp .DisconnectedError :: l₂ →
      ∃ c2 cs2 rng2 k2,
        l₂ = ProcAction.closeSender c2 :: (start w hs endpoint cs2 rng2 k2).1 ∧
        (start w hs endpoint cycles rng connId).2 =
          (start w hs endpoint cs2 rng2 k2).2 := by
  intro cycles
  induction cycles with
  | nil =>
    intro rng connId l₁ l₂ cid resp h
    rw [show (start w hs endpoint [] rng connId).1 = [] from rfl] at h
    exact (split_nil h).elim
  | cons c cs ih =>
    intro rng connId l₁ l₂ cid resp h
    have hxreg : ProcAction.reply cid resp .DisconnectedError ∉
        (register hs c.regEnv rng).2.1 :=
      notin_register_acts hs c.regEnv rng
        (by intro f v ns cid2 hh; simp at hh)
    cases hreg : (register hs c.regEnv rng).1
    case false =>
      rw [start_cons_regFail_acts w hs endpoint c cs rng connId hreg] at h
      rcases cons_split h with ⟨-, hhead, -⟩ | ⟨l₁', -, h2⟩
      · exact absurd hhead (by simp)
      obtain ⟨l₁'', h3, -⟩ := split_skip h2 hxreg
      obtain ⟨c2, cs2, rng2, k2, hl2, hexit⟩ :=
        ih _ (connId + 1) l₁'' l₂ cid resp h3
      exact ⟨c2, cs2, rng2, k2, hl2,
        (start_cons_regFail_exit w hs endpoint c cs rng connId hreg).trans
          hexit⟩
    case true =>
      cases hserve : (serveLoop w hs c.events).2
      case reconnect =>
        rw [start_cons_reconnect_acts w hs endpoint c cs rng connId hreg
          hserve] at h
        rcases cons_split h with ⟨-, hhead, -⟩ | ⟨l₁', -, h2⟩
        · exact absurd hhead (by simp)
        rcases append_split_at h2 with ⟨l₂', hA, hl₂⟩ | ⟨l₁'', hB, -⟩
        · obtain ⟨l'', h3, -⟩ := split_skip hA hxreg
          rcases cons_split h3 with ⟨-, hhead2, -⟩ | ⟨lc, -, h4⟩
          · exact absurd hhead2 (by simp)
          obtain ⟨hl2nil, -⟩ :=
            serveLoop_replyDisc_split w hs c.events lc l₂' cid resp h4
          refine ⟨connId, cs, (register hs c.regEnv rng).2.2, connId + 1,
            ?_, start_cons_reconnect_exit w hs endpoint c cs rng connId
              hreg hserve⟩
          rw [hl₂, hl2nil]
          simp
        · rcases cons_split hB with ⟨-, hhead2, -⟩ | ⟨lc, -, h4⟩
          · exact absurd hhead2 (by simp)
          obtain ⟨c2, cs2, rng2, k2, hl2, hexit⟩ :=
            ih _ (connId + 1) lc l₂ cid resp h4
          exact ⟨c2, cs2, rng2, k2, hl2,
            (start_cons_reconnect_exit w hs endpoint c cs rng connId hreg
              hserve).trans hexit⟩
      case terminate =>
        rw [start_cons_terminate_acts w hs endpoint c cs rng connId hreg
          hserve] at h
        rcases cons_split h with ⟨-, hhead, -⟩ | ⟨l₁', -, h2⟩
        · exact absurd hhead (by simp)
        rcases append_split_at h2 with ⟨l₂', hA, -⟩ | ⟨l₁'', hB, -⟩
        · obtain ⟨l'', h3, -⟩ := split_skip hA hxreg
          rcases cons_split h3 with ⟨-, hhead2, -⟩ | ⟨lc, -, h4⟩
          · exact absurd hhead2 (by simp)
          have hx :=
            (serveLoop_replyDisc_split w hs c.events lc l₂' cid resp h4).2
          rw [hserve] at hx
          exact absurd hx (by simp)
        · obtain ⟨-, hhead2, -⟩ := split_singleton hB
          exact absurd hhead2 (by simp)
      case blocked =>
        rw [start_cons_blocked_acts w hs endpoint c cs rng connId hreg
          hserve] at h
        rcases cons_split h with ⟨-, hhead, -⟩ | ⟨l₁', -, h2⟩
        · exact absurd hhead (by simp)
        obtain ⟨l'', h3, -⟩ := split_skip h2 hxreg
        rcases cons_split h3 with ⟨-, hhead2, -⟩ | ⟨lc, -, h4⟩
        · exact absurd hhead2 (by simp)
        have hx :=
          (serveLoop_replyDisc_split w hs c.events lc l₂ cid resp h4).2
        rw [hserve] at hx
        exact absurd hx (by simp)
      case panicked =>
        rw [start_cons_panicked_acts w hs endpoint c cs rng connId hreg
          hserve] at h
        rcases cons_split h with ⟨-, hhead, -⟩ | ⟨l₁', -, h2⟩
        · exact absurd hhead (by simp)
        obtain ⟨l'', h3, -⟩ := split_skip h2 hxreg
        rcases cons_split h3 with ⟨-, hhead2, -⟩ | ⟨lc, -, h4⟩
        · exact absurd hhead2 (by simp)
        have hx :=
          (serveLoop_replyDisc_split w hs c.events lc l₂ cid resp h4).2
        rw [hserve] at hx
        exact absurd hx (by simp)

theorem start_replyUnknown_split (w : World) (hs : List TransactionHandler)
    (endpoint : String) :
    ∀ (cycles : List CycleEnv) (rng connId : Nat)
      (l₁ l₂ : List ProcAction) (cid : String) (resp : TpProcessResponse),
      (start w hs endpoint cycles rng connId).1 =
        l₁ ++ ProcAction.reply cid resp .UnknownError :: l₂ →
      (∃ c2, l₂ = [ProcAction.closeSender c2]) ∧
      (start w hs endpoint cycles rng connId).2 = .terminated := by
  intro cycles
  induction cycles with
  | nil =>
    intro rng connId l₁ l₂ cid resp h
    rw [show (start w hs endpoint [] rng connId).1 = [] from rfl] at h
    exact (split_nil h).elim
  | cons c cs ih =>
    intro rng connId l₁ l₂ cid resp h
    have hxreg : ProcAction.reply cid resp .UnknownError ∉
        (register hs c.regEnv rng).2.1 :=
      notin_register_acts hs c.regEnv rng
        (by intro f v ns cid2 hh; simp at hh)
    cases hreg : (register hs c.regEnv rng).1
    case false =>
      rw [start_cons_regFail_acts w hs endpoint c cs rng connId hreg] at h
      rcases cons_split h with ⟨-, hhead, -⟩ | ⟨l₁', -, h2⟩
      · exact absurd hhead (by simp)
      obtain ⟨l₁'', h3, -⟩ := split_skip h2 hxreg
      obtain ⟨hl2, hexit⟩ := ih _ (connId + 1) l₁'' l₂ cid resp h3
      exact ⟨hl2,
        (start_cons_regFail_exit w hs endpoint c cs rng connId hreg).trans
          hexit⟩
    case true =>
      cases hserve : (serveLoop w hs c.events).2
      case reconnect =>
        rw [start_cons_reconnect_acts w hs endpoint c cs rng connId hreg
          hserve] at h
        rcases cons_split h with ⟨-, hhead, -⟩ | ⟨l₁', -, h2⟩
        · exact absurd hhead (by simp)
        rcases append_split_at h2 with ⟨l₂', hA, -⟩ | ⟨l₁'', hB, -⟩
        · obtain ⟨l'', h3, -⟩ := split_skip hA hxreg
          rcases cons_split h3 with ⟨-, hhead2, -⟩ | ⟨lc, -, h4⟩
          · exact absurd hhead2 (by simp)
          have hx :=
            (serveLoop_replyUnknown_split w hs c.events lc l₂' cid resp
              h4).2
          rw [hserve] at hx
          exact absurd hx (by simp)
        · rcases cons_split hB with ⟨-, hhead2, -⟩ | ⟨lc, -, h4⟩
          · exact absurd hhead2 (by simp)
          obtain ⟨hl2, hexit⟩ := ih _ (connId + 1) lc l₂ cid resp h4
          exact ⟨hl2,
            (start_cons_reconnect_exit w hs endpoint c cs rng connId hreg
              hserve).trans hexit⟩
      case terminate =>
        rw [start_cons_terminate_acts w hs endpoint c cs rng connId hreg
          hserve] at h
        rcases cons_split h with ⟨-, hhead, -⟩ | ⟨l₁', -, h2⟩
        · exact absurd hhead (by simp)
        rcases append_split_at h2 with ⟨l₂', hA, hl₂⟩ | ⟨l₁'', hB, -⟩
        · obtain ⟨l'', h3, -⟩ := split_skip hA hxreg
          rcases cons_split h3 with ⟨-, hhead2, -⟩ | ⟨lc, -, h4⟩
          · exact absurd hhead2 (by simp)
          obtain ⟨hl2nil, -⟩ :=
            serveLoop_replyUnknown_split w hs c.events lc l₂' cid resp h4
          refine ⟨⟨connId, ?_⟩,
            start_cons_terminate_exit w hs endpoint c cs rng connId hreg
              hserve⟩
          rw [hl₂, hl2nil]
          simp
        · obtain ⟨-, hhead2, -⟩ := split_singleton hB
          exact absurd hhead2 (by simp)
      case blocked =>
        rw [start_cons_blocked_acts w hs endpoint c cs rng connId hreg
          hserve] at h
        rcases cons_split h with ⟨-, hhead, -⟩ | ⟨l₁', -, h2⟩
        · exact absurd hhead (by simp)
        obtain ⟨l'', h3, -⟩ := split_skip h2 hxreg
        rcases cons_split h3 with ⟨-, hhead2, -⟩ | ⟨lc, -, h4⟩
        · exact absurd hhead2 (by simp)
        have hx :=
          (serveLoop_replyUnknown_split w hs c.events lc l₂ cid resp h4).2
        rw [hserve] at hx
        exact absurd hx (by simp)
      case panicked =>
        rw [start_cons_panicked_acts w hs endpoint c cs rng connId hreg
          hserve] at h
        rcases cons_split h with ⟨-, hhead, -⟩ | ⟨l₁', -, h2⟩
        · exact absurd hhead (by simp)
        obtain ⟨l'', h3, -⟩ := split_skip h2 hxreg
        rcases cons_split h3 with ⟨-, hhead2, -⟩ | ⟨lc, -, h4⟩
        · exact absurd hhead2 (by simp)
        have hx :=
          (serveLoop_replyUnknown_split w hs c.events lc l₂ cid resp h4).2
        rw [hserve] at hx
        exact absurd hx (by simp)

theorem serveLoop_panicked_cause (w : World) (hs : List TransactionHandler) :
    ∀ (evs : List RecvEvent), (serveLoop w hs evs).2 = .panicked →
      ∃ ev, ev ∈ evs ∧ (serveStep w hs ev).2 = .panicked := by
  intro evs
  induction evs with
  | nil =>
    intro h
    rw [show (serveLoop w hs []).2 = .blocked from rfl] at h
    exact absurd h (by simp)
  | cons ev rest ih =>
    intro h
    cases hctl : (serveStep w hs ev).2
    case cont =>
      rw [serveLoop_cons_cont_exit w hs ev rest hctl] at h
      obtain ⟨ev2, hmem, hp⟩ := ih h
      exact ⟨ev2, List.mem_cons_of_mem _ hmem, hp⟩
    case breakReconnect =>
      rw [serveLoop_cons_reconnect_exit w hs ev rest hctl] at h
      exact absurd h (by simp)
    case breakTerminate =>
      rw [serveLoop_cons_terminate_exit w hs ev rest hctl] at h
      exact absurd h (by simp)
    case panicked => exact ⟨ev, List.mem_cons_self _ _, hctl⟩

theorem start_no_panic (w : World) (hs : List TransactionHandler)
    (endpoint : String) :
    ∀ (cycles : List CycleEnv) (rng connId : Nat), hs ≠ [] →
      (∀ c ∈ cycles, ∀ ev ∈ c.events, serFailEvent ev = false) →
      (start w hs endpoint cycles rng connId).2 ≠ .panicked := by
  intro cycles
  induction cycles with
  | nil =>
    intro rng connId hne hser h
    rw [show (start w hs endpoint [] rng connId).2 = .outOfCycles
      from rfl] at h
    exact absurd h (by simp)
  | cons c cs ih =>
    intro rng connId hne hser h
    cases hreg : (register hs c.regEnv rng).1
    case false =>
      rw [start_cons_regFail_exit w hs endpoint c cs rng connId hreg] at h
      exact ih _ (connId + 1) hne
        (fun c2 hc2 => hser c2 (List.mem_cons_of_mem _ hc2)) h
    case true =>
      cases hserve : (serveLoop w hs c.events).2
      case reconnect =>
        rw [start_cons_reconnect_exit w hs endpoint c cs rng connId hreg
          hserve] at h
        exact ih _ (connId + 1) hne
          (fun c2 hc2 => hser c2 (List.mem_cons_of_mem _ hc2)) h
      case terminate =>
        rw [start_cons_terminate_exit w hs endpoint c cs rng connId hreg
          hserve] at h
        exact absurd h (by simp)
      case blocked =>
        rw [start_cons_blocked w hs endpoint c cs rng connId hreg
          hserve] at h
        simp at h
      case panicked =>
        obtain ⟨ev, hmem, hstep⟩ :=
          serveLoop_panicked_cause w hs c.events hserve
        rcases (serveStep_panicked w hs ev hstep).2 with heq | hfail
        · exact hne heq
        · have := hser c (List.mem_cons_self _ _) ev hmem
          rw [this] at hfail
          exact absurd hfail (by simp)

/-! ## Claim theorems -/

/-- C1 (amended): for every envelope of process-request type whose payload
parses, handled while serving with a nonempty handler registry, and whose
response serialization succeeds, the dispatch-loop iteration sends exactly
one reply, carrying the same correlation id as the inbound envelope. -/
theorem process_request_exactly_one_reply (w : World)
    (h : TransactionHandler) (hs : List TransactionHandler) (m : Message)
    (ro : SendOutcome) (req : TpProcessRequest)
    (hty : m.message_type = .TP_PROCESS_REQUEST)
    (hparse : w.parseProcessRequest m.content = some req) :
    (serveStep w (h :: hs) (.msg m true ro)).1.filter isReply =
      [ProcAction.reply m.correlation_id (responseFor (h.apply req)) ro] := by
  simp [serveStep, hty, hparse, isReply]

/-- Witness for process_request_exactly_one_reply at a concrete request. -/
theorem process_request_exactly_one_reply_witness :
    (serveStep wTest [hOK] (.msg mReq true .ok)).1.filter isReply =
      [ProcAction.reply "corr1" ⟨.OK, none⟩ .ok] :=
  process_request_exactly_one_reply wTest hOK [] mReq .ok ⟨"ctx", []⟩ rfl rfl

/-- C1 counterexample: a well-formed process request received while serving
(after a successful registration) whose response serialization fails yields
no reply at all, refuting the unconditional exactly-one-reply claim. -/
theorem reply_dropped_on_serialization_failure :
    mReq.message_type = .TP_PROCESS_REQUEST ∧
    wTest.parseProcessRequest mReq.content = some ⟨"ctx", []⟩ ∧
    ProcAction.recv (.msg mReq false .ok) ∈
      (start wTest [hOK] "ep" [⟨envAllOk, [.msg mReq false .ok]⟩] 0 0).1 ∧
    (start wTest [hOK] "ep"
      [⟨envAllOk, [.msg mReq false .ok]⟩] 0 0).1.countP isReply = 0 := by
  decide

/-- C3: the apply outcome maps to the response as: Ok yields OK with no
message; InvalidTransaction(m) yields INVALID_TRANSACTION with message
exactly m; any other error yields INTERNAL_ERROR with the error's
description — and the reply sent carries exactly that response. -/
theorem apply_outcome_response_mapping (w : World) (h : TransactionHandler)
    (hs : List TransactionHandler) (m : Message) (ro : SendOutcome)
    (req : TpProcessRequest)
    (hty : m.message_type = .TP_PROCESS_REQUEST)
    (hparse : w.parseProcessRequest m.content = some req) :
    ProcAction.reply m.correlation_id (responseFor (h.apply req)) ro ∈
      (serveStep w (h :: hs) (.msg m true ro)).1 ∧
    (h.apply req = .ok () → responseFor (h.apply req) = ⟨.OK, none⟩) ∧
    (∀ s, h.apply req = .error (.InvalidTransaction s) →
      responseFor (h.apply req) = ⟨.INVALID_TRANSACTION, some s⟩) ∧
    (∀ e, h.apply req = .error e → (∀ s, e ≠ .InvalidTransaction s) →
      responseFor (h.apply req) = ⟨.INTERNAL_ERROR, some e.description⟩) := by
  refine ⟨by simp [serveStep, hty, hparse], ?_, ?_, ?_⟩
  · intro ha; rw [ha]; rfl
  · intro s ha; rw [ha]; rfl
  · intro e ha hne
    rw [ha]
    cases e with
    | InvalidTransaction s => exact absurd rfl (hne s)
    | InternalError d => rfl

/-- Witness for apply_outcome_response_mapping: a handler reporting
InvalidTransaction yields a reply with that exact message. -/
theorem apply_outcome_response_mapping_witness :
    ProcAction.reply "corr1" ⟨.INVALID_TRANSACTION, some "bad sig"⟩ .ok ∈
      (serveStep wTest [hInv] (.msg mReq true .ok)).1 :=
  (apply_outcome_response_mapping wTest hInv [] mReq .ok ⟨"ctx", []⟩
    rfl rfl).1

/-- C4: after a serve-phase disconnect (receiver disconnect signal or a
disconnected reply), the sender is closed immediately, and any later
handled process request is preceded — within the post-disconnect trace —
by a registration success and by registration sends for every (handler,
version) pair; every connect uses the same fixed endpoint. -/
theorem disconnect_reconnect_reregister (w : World)
    (hs : List TransactionHandler) (endpoint : String)
    (cycles : List CycleEnv) (rng connId : Nat) :
    (∀ l₁ l₂, (start w hs endpoint cycles rng connId).1 =
        l₁ ++ ProcAction.recv .recvDisconnected :: l₂ →
      ∃ c2 t, l₂ = ProcAction.closeSender c2 :: t ∧
        ∀ l₃ l₄ k req, t = l₃ ++ ProcAction.handlerInvoked k req :: l₄ →
          ProcAction.regSuccess ∈ l₃ ∧
          ∀ pr ∈ regPairs hs, ∃ cid,
            ProcAction.regSend pr.1 pr.2.1 pr.2.2 cid ∈ l₃) ∧
    (∀ l₁ l₂ cid resp, (start w hs endpoint cycles rng connId).1 =
        l₁ ++ ProcAction.reply cid resp .DisconnectedError :: l₂ →
      ∃ c2 t, l₂ = ProcAction.closeSender c2 :: t ∧
        ∀ l₃ l₄ k req, t = l₃ ++ ProcAction.handlerInvoked k req :: l₄ →
          ProcAction.regSuccess ∈ l₃ ∧
          ∀ pr ∈ regPairs hs, ∃ cid2,
            ProcAction.regSend pr.1 pr.2.1 pr.2.2 cid2 ∈ l₃) ∧
    (∀ e c2, ProcAction.connect e c2 ∈
        (start w hs endpoint cycles rng connId).1 → e = endpoint) := by
  refine ⟨?_, ?_, start_connect_endpoint w hs endpoint cycles rng connId⟩
  · intro l₁ l₂ hsplit
    obtain ⟨c2, cs2, rng2, k2, hl2, -⟩ :=
      start_recvDisc_split w hs endpoint cycles rng connId l₁ l₂ hsplit
    exact ⟨c2, _, hl2, fun l₃ l₄ k req ht =>
      start_handlerInvoked_needs_reg w hs endpoint cs2 rng2 k2 l₃ l₄ k
        req ht⟩
  · intro l₁ l₂ cid resp hsplit
    obtain ⟨c2, cs2, rng2, k2, hl2, -⟩ :=
      start_replyDisc_split w hs endpoint cycles rng connId l₁ l₂ cid
        resp hsplit
    exact ⟨c2, _, hl2, fun l₃ l₄ k req ht =>
      start_handlerInvoked_needs_reg w hs endpoint cs2 rng2 k2 l₃ l₄ k
        req ht⟩

/-- Witness for disconnect_reconnect_reregister: a disconnect followed by a
served request in the next cycle. -/
theorem disconnect_reconnect_reregister_witness :
    ∃ c2 t,
      ([ProcAction.closeSender 0, ProcAction.connect "ep" 1,
        ProcAction.regSend "F" "v1" ["ns"] "a", ProcAction.regSuccess,
        ProcAction.recv (.msg mReq true .ok),
        ProcAction.handlerInvoked 0 ⟨"ctx", []⟩,
        ProcAction.reply "corr1" ⟨.OK, none⟩ .ok] : List ProcAction) =
        ProcAction.closeSender c2 :: t ∧
      ∀ l₃ l₄ k req, t = l₃ ++ ProcAction.handlerInvoked k req :: l₄ →
        ProcAction.regSuccess ∈ l₃ ∧
        ∀ pr ∈ regPairs [hOK], ∃ cid,
          ProcAction.regSend pr.1 pr.2.1 pr.2.2 cid ∈ l₃ :=
  (disconnect_reconnect_reregister wTest [hOK] "ep"
    [⟨envAllOk, [.recvDisconnected]⟩, ⟨envAllOk, [.msg mReq true .ok]⟩]
    0 0).1
    [ProcAction.connect "ep" 0, ProcAction.regSend "F" "v1" ["ns"] "",
     ProcAction.regSuccess]
    [ProcAction.closeSender 0, ProcAction.connect "ep" 1,
     ProcAction.regSend "F" "v1" ["ns"] "a", ProcAction.regSuccess,
     ProcAction.recv (.msg mReq true .ok),
     ProcAction.handlerInvoked 0 ⟨"ctx", []⟩,
     ProcAction.reply "corr1" ⟨.OK, none⟩ .ok] (by decide)

/-- C5: if sender.reply returns the Unknown error while serving, the only
subsequent action is closing the sender — no further receive calls and no
reconnects — and start() returns with the terminated outcome. -/
theorem unknown_send_error_terminates (w : World)
    (hs : List TransactionHandler) (endpoint : String)
    (cycles : List CycleEnv) (rng connId : Nat) (l₁ l₂ : List ProcAction)
    (cid : String) (resp : TpProcessResponse)
    (hsplit : (start w hs endpoint cycles rng connId).1 =
      l₁ ++ ProcAction.reply cid resp .UnknownError :: l₂) :
    (∃ c2, l₂ = [ProcAction.closeSender c2]) ∧
    (start w hs endpoint cycles rng connId).2 = .terminated :=
  start_replyUnknown_split w hs endpoint cycles rng connId l₁ l₂ cid resp
    hsplit

/-- Witness for unknown_send_error_terminates at a concrete run. -/
theorem unknown_send_error_terminates_witness :
    (∃ c2, ([ProcAction.closeSender 0] : List ProcAction) =
      [ProcAction.closeSender c2]) ∧
    (start wTest [hOK] "ep"
      [⟨envAllOk, [.msg mReq true .UnknownError, .transportErr]⟩] 0 0).2 =
      .terminated :=
  unknown_send_error_terminates wTest [hOK] "ep"
    [⟨envAllOk, [.msg mReq true .UnknownError, .transportErr]⟩] 0 0
    [ProcAction.connect "ep" 0, ProcAction.regSend "F" "v1" ["ns"] "",
     ProcAction.regSuccess, ProcAction.recv (.msg mReq true .UnknownError),
     ProcAction.handlerInvoked 0 ⟨"ctx", []⟩]
    [ProcAction.closeSender 0] "corr1" ⟨.OK, none⟩ (by decide)

/-- C6: every process request handled by the serve loop is routed to the
first entry of the handler registry: the step is insensitive to the rest of
the registry, and the invoked-handler index is 0. -/
theorem routes_to_first_handler (w : World) (h : TransactionHandler)
    (hs hs2 : List TransactionHandler) (m : Message) (serOk : Bool)
    (ro : SendOutcome) (req : TpProcessRequest)
    (hty : m.message_type = .TP_PROCESS_REQUEST)
    (hparse : w.parseProcessRequest m.content = some req) :
    serveStep w (h :: hs) (.msg m serOk ro) =
      serveStep w (h :: hs2) (.msg m serOk ro) ∧
    ProcAction.handlerInvoked 0 req ∈
      (serveStep w (h :: hs) (.msg m serOk ro)).1 := by
  constructor
  · cases serOk <;> simp [serveStep, hty, hparse]
  · cases serOk <;> simp [serveStep, hty, hparse]

/-- Witness for routes_to_first_handler: differing registry tails yield the
same step. -/
theorem routes_to_first_handler_witness :
    serveStep wTest [hOK, hInv] (.msg mReq true .ok) =
      serveStep wTest [hOK] (.msg mReq true .ok) ∧
    ProcAction.handlerInvoked 0 ⟨"ctx", []⟩ ∈
      (serveStep wTest [hOK, hInv] (.msg mReq true .ok)).1 :=
  routes_to_first_handler wTest hOK [hInv] [] mReq true .ok ⟨"ctx", []⟩
    rfl rfl

/-- C7: an envelope of process-request type whose payload fails to parse
produces no action at all — no reply, no handler invocation — the loop
continues, and the next envelope is processed normally. -/
theorem malformed_request_dropped (w : World)
    (hs : List TransactionHandler) (m : Message) (serOk : Bool)
    (ro : SendOutcome) (rest : List RecvEvent)
    (hty : m.message_type = .TP_PROCESS_REQUEST)
    (hparse : w.parseProcessRequest m.content = none) :
    serveStep w hs (.msg m serOk ro) = ([], .cont) ∧
    serveLoop w hs (.msg m serOk ro :: rest) =
      (ProcAction.recv (.msg m serOk ro) :: (serveLoop w hs rest).1,
        (serveLoop w hs rest).2) := by
  have hstep : serveStep w hs (.msg m serOk ro) = ([], .cont) := by
    simp [serveStep, hty, hparse]
  refine ⟨hstep, ?_⟩
  rw [serveLoop_cons_cont w hs _ rest (by rw [hstep]), hstep]
  simp

/-- Witness for malformed_request_dropped at a concrete undecodable
payload. -/
theorem malformed_request_dropped_witness :
    serveStep wNone [hOK] (.msg mReq true .ok) = ([], .cont) ∧
    serveLoop wNone [hOK] [.msg mReq true .ok] =
      (ProcAction.recv (.msg mReq true .ok) ::
        (serveLoop wNone [hOK] []).1, (serveLoop wNone [hOK] []).2) :=
  malformed_request_dropped wNone [hOK] mReq true .ok [] rfl rfl

/-- C8 (amended): on a serve-phase disconnect — receiver disconnect or a
disconnected reply — the old connection's sender is closed as the
immediately following action, before the connection is replaced; but on a
registration failure the connection is replaced without any close: if the
first cycle's registration fails, its connection's sender is never
closed. -/
theorem sender_closed_on_serve_disconnect (w : World)
    (hs : List TransactionHandler) (endpoint : String)
    (cycles : List CycleEnv) (rng connId : Nat) :
    (∀ l₁ l₂, (start w hs endpoint cycles rng connId).1 =
        l₁ ++ ProcAction.recv .recvDisconnected :: l₂ →
      ∃ c2 t, l₂ = ProcAction.closeSender c2 :: t) ∧
    (∀ l₁ l₂ cid resp, (start w hs endpoint cycles rng connId).1 =
        l₁ ++ ProcAction.reply cid resp .DisconnectedError :: l₂ →
      ∃ c2 t, l₂ = ProcAction.closeSender c2 :: t) ∧
    (∀ c cs2, cycles = c :: cs2 →
      (register hs c.regEnv rng).1 = false →
      ProcAction.closeSender connId ∉
        (start w hs endpoint cycles rng connId).1) := by
  refine ⟨?_, ?_, ?_⟩
  · intro l₁ l₂ hsplit
    obtain ⟨c2, cs2, rng2, k2, hl2, -⟩ :=
      start_recvDisc_split w hs endpoint cycles rng connId l₁ l₂ hsplit
    exact ⟨c2, _, hl2⟩
  · intro l₁ l₂ cid resp hsplit
    obtain ⟨c2, cs2, rng2, k2, hl2, -⟩ :=
      start_replyDisc_split w hs endpoint cycles rng connId l₁ l₂ cid
        resp hsplit
    exact ⟨c2, _, hl2⟩
  · intro c cs2 hcyc hregf hmem
    subst hcyc
    rw [start_cons_regFail_acts w hs endpoint c cs2 rng connId hregf] at hmem
    rcases List.mem_cons.mp hmem with heq | hm1
    · simp at heq
    rcases List.mem_append.mp hm1 with hm2 | hm3
    · exact absurd hm2 (notin_register_acts hs c.regEnv rng
        (by intro f v ns cid hh; simp at hh))
    · have := start_closeSender_ge w hs endpoint cs2 _ (connId + 1)
        connId hm3
      omega

/-- Witness for sender_closed_on_serve_disconnect: a failed first
registration leaves its connection's sender unclosed. -/
theorem sender_closed_on_serve_disconnect_witness :
    ProcAction.closeSender 0 ∉
      (start wTest [hOK] "ep" [⟨envSendFail, []⟩, ⟨envAllOk, []⟩] 0 0).1 :=
  (sender_closed_on_serve_disconnect wTest [hOK] "ep"
    [⟨envSendFail, []⟩, ⟨envAllOk, []⟩] 0 0).2.2 ⟨envSendFail, []⟩
    [⟨envAllOk, []⟩] rfl (by decide)

/-- C8 counterexample: after a registration failure the connection is
discarded and a new one is created (two connects) while no sender close at
all occurs in the trace — the old sender is not closed before the
connection is replaced. -/
theorem registration_failure_skips_close :
    (register [hOK] envSendFail 0).1 = false ∧
    (start wTest [hOK] "ep" [⟨envSendFail, []⟩, ⟨envAllOk, []⟩] 0 0).1 =
      [ProcAction.connect "ep" 0, ProcAction.regSend "F" "v1" ["ns"] "",
       ProcAction.connect "ep" 1, ProcAction.regSend "F" "v1" ["ns"] "a",
       ProcAction.regSuccess] ∧
    (start wTest [hOK] "ep" [⟨envSendFail, []⟩, ⟨envAllOk, []⟩]
      0 0).1.countP isCloseSender = 0 := by
  decide

/-- C9 (amended): provided the handler registry is nonempty and response
serialization never fails, no error escapes the dispatch loop: the run
never reaches the panicked outcome. -/
theorem no_panic_with_handlers_and_serialization (w : World)
    (hs : List TransactionHandler) (endpoint : String)
    (cycles : List CycleEnv) (rng connId : Nat) (hne : hs ≠ [])
    (hser : ∀ c ∈ cycles, ∀ ev ∈ c.events, serFailEvent ev = false) :
    (start w hs endpoint cycles rng connId).2 ≠ .panicked :=
  start_no_panic w hs endpoint cycles rng connId hne hser

/-- Witness for no_panic_with_handlers_and_serialization on a concrete
run. -/
theorem no_panic_with_handlers_and_serialization_witness :
    (start wTest [hOK] "ep" [⟨envAllOk, [.msg mReq true .ok]⟩] 0 0).2 ≠
      .panicked :=
  no_panic_with_handlers_and_serialization wTest [hOK] "ep"
    [⟨envAllOk, [.msg mReq true .ok]⟩] 0 0 (by simp)
    (by
      intro c hc ev hev
      rcases List.mem_singleton.mp hc with rfl
      rcases List.mem_singleton.mp hev with rfl
      rfl)

/-- C9 counterexample: with a registered handler, an envelope of an
unhandled message type whose response serialization fails makes the
dispatch loop abort (the unwrap at line 232 panics), so errors can escape
start(). -/
theorem unwrap_panic_on_other_type_serialization_failure :
    (start wTest [hOK] "ep" [⟨envAllOk, [.msg mOther false .ok]⟩] 0 0).2 =
      .panicked := by
  decide

/-- C10: with an empty handler registry, registration succeeds vacuously,
and a well-formed process request panics at handlers[0] with no actions —
in particular no reply of any status — and the whole run aborts. -/
theorem empty_registry_process_request_panics (w : World)
    (env : Nat → RegPairEnv) (rng : Nat) (endpoint : String) (m : Message)
    (serOk : Bool) (ro : SendOutcome) (req : TpProcessRequest) (connId : Nat)
    (hty : m.message_type = .TP_PROCESS_REQUEST)
    (hparse : w.parseProcessRequest m.content = some req) :
    (register [] env rng).1 = true ∧
    serveStep w [] (.msg m serOk ro) = ([], .panicked) ∧
    (start w [] endpoint [⟨env, [.msg m serOk ro]⟩] rng connId).2 =
      .panicked := by
  have hstep : serveStep w [] (.msg m serOk ro) = ([], .panicked) := by
    simp [serveStep, hty, hparse]
  refine ⟨rfl, hstep, ?_⟩
  have hloop : (serveLoop w [] [.msg m serOk ro]).2 = .panicked := by
    rw [serveLoop_cons_panicked w [] _ [] (by rw [hstep])]
  rw [start_cons_panicked w [] endpoint _ [] rng connId rfl hloop]

/-- Witness for empty_registry_process_request_panics at a concrete
request. -/
theorem empty_registry_process_request_panics_witness :
    (register [] envAllOk 0).1 = true ∧
    serveStep wTest [] (.msg mReq true .ok) = ([], .panicked) ∧
    (start wTest [] "ep" [⟨envAllOk, [.msg mReq true .ok]⟩] 0 0).2 =
      .panicked :=
  empty_registry_process_request_panics wTest envAllOk 0 "ep" mReq true
    .ok ⟨"ctx", []⟩ 0 rfl rfl
